import Mathlib

set_option maxRecDepth 100000

/-!
# Verification of the `PiketOmprengDES` discrete-event simulation (src/app.py)

This file gives a shallow embedding of the simulation engine in `src/app.py`:
the `Config` dataclass, the `PiketOmprengDES` class (its constructor, the four
generator processes `generate`, `proses_ompreng`, `proses_angkut`,
`proses_nasi`, the `run` driver and `analyze_results`), together with the
parts of the `simpy` library the engine relies on (the event scheduler,
`simpy.Resource`, `simpy.Store`).

Conventions of the embedding:

* All times are natural numbers counted in **quarter seconds**, so that the
  0.5-second poll interval of `proses_angkut` / `proses_nasi` is the integer
  `2`, and service times such as 30 or 60 seconds are `120` and `240`.
* `simpy`'s event queue is a list of events sorted by the key
  `(time, priority, eid)`; `Initialize` events carry priority `0` (simpy's
  `URGENT`), every other event priority `1` (simpy's `NORMAL`), and `eid` is
  the strictly increasing insertion counter, reproducing simpy's FIFO
  tie-break for events scheduled at the same instant.
* Each Python generator is defunctionalized into a `Proc` constructor per
  suspension point (`yield`); the semantics of resuming a generator at a
  suspension point is the corresponding branch of `dispatch`.
* `random.uniform(a, b)` / `random.randint(a, b)` are modelled by reading one
  value from an ambient stream `g : ℕ → ℕ` (indexed by `rngIdx`, incremented
  at every draw, reproducing the single global `random` stream seeded in
  `__init__`) and mapping it into the closed interval `[a, b]`;
  `random.randint` with `a > b` raises `ValueError`, modelled by `none`.
* `simpy.Resource(env, capacity)` raises `ValueError` for `capacity ≤ 0`;
  the constructor embedding `initModel` returns `none` in that case.
* `pandas`: `analyze_results` builds a `DataFrame` from `self.data`; on an
  empty run the frame has no columns and `df["total_waktu"]` raises a
  `KeyError`, modelled by `none`.
-/

/-- The `Config` dataclass of `src/app.py` (times in quarter seconds). -/
structure Config where
  NUM_MEJA : ℕ := 60
  MAHASISWA_PER_MEJA : ℕ := 3
  PETUGAS_LAUK : ℕ := 3
  PETUGAS_ANGKUT : ℕ := 2
  PETUGAS_NASI : ℕ := 2
  LAUK_MIN_TIME : ℕ := 120
  LAUK_MAX_TIME : ℕ := 240
  ANGKUT_MIN_TIME : ℕ := 80
  ANGKUT_MAX_TIME : ℕ := 240
  ANGKUT_MIN_LOAD : ℕ := 4
  ANGKUT_MAX_LOAD : ℕ := 7
  NASI_MIN_TIME : ℕ := 120
  NASI_MAX_TIME : ℕ := 240
  START_HOUR : ℕ := 7
  START_MINUTE : ℕ := 0
  RANDOM_SEED : ℕ := 42
  deriving DecidableEq, Repr

/-- `Config.TOTAL_OMPRENG`: `NUM_MEJA * MAHASISWA_PER_MEJA`. -/
def Config.TOTAL_OMPRENG (c : Config) : ℕ :=
  c.NUM_MEJA * c.MAHASISWA_PER_MEJA

/-- `self.start_time` as an offset in quarter seconds from 2024-01-01 00:00
(`datetime(2024,1,1,START_HOUR,START_MINUTE)`). -/
def Config.startOffset (c : Config) : ℕ :=
  (c.START_HOUR * 3600 + c.START_MINUTE * 60) * 4

/-- The dict put into `antrian_lauk` by `proses_ompreng` (and later enriched
with the key `selesai_angkut` by `proses_angkut`, hence the `Option`). -/
structure Item where
  id : ℕ
  datang : ℕ
  mulai_lauk : ℕ
  selesai_lauk : ℕ
  selesai_angkut : Option ℕ
  deriving DecidableEq, Repr

/-- The dict appended to `self.data` by `proses_nasi`.  `jam_selesai` is the
`datetime` `waktu_ke_jam(selesai)`, stored as quarter seconds since
2024-01-01 00:00. -/
structure Row where
  id : ℕ
  mulai_lauk : ℕ
  selesai_lauk : ℕ
  mulai_nasi : ℕ
  selesai_nasi : ℕ
  total_waktu : ℕ
  jam_selesai : ℕ
  deriving DecidableEq, Repr

/-- A defunctionalized suspension point of one of the four Python generators
of `PiketOmprengDES`.  A value describes what the generator will do when the
scheduler resumes it. -/
inductive Proc where
  /-- `generate` about to run iteration `i` of its `for` loop. -/
  | gen (i : ℕ)
  /-- body of `proses_ompreng(i)` about to start (its `Initialize` event). -/
  | ompStart (i : ℕ)
  /-- `proses_ompreng(i)` resumed after `yield req` (lauk server granted). -/
  | ompGranted (i datang : ℕ)
  /-- `proses_ompreng(i)` resumed after `yield env.timeout(t)`. -/
  | ompServiceDone (i datang mulai t : ℕ)
  /-- `proses_ompreng` resumed after `yield antrian_lauk.put(...)`; the
  generator returns immediately. -/
  | nop
  /-- `proses_angkut` at the top of its `while` loop. -/
  | angkutLoop
  /-- `proses_angkut` resumed after one `yield antrian_lauk.get()`; `k` gets
  remain to be issued, `batch` holds the items collected so far. -/
  | angkutDrain (k : ℕ) (batch : List Item)
  /-- `proses_angkut` resumed after `yield req` (angkut server granted). -/
  | angkutGranted (batch : List Item)
  /-- `proses_angkut` resumed after `yield env.timeout(t)`. -/
  | angkutDone (batch : List Item) (t : ℕ)
  /-- `proses_angkut` resumed after one `yield antrian_nasi.put(item)`;
  `rest` still has to be stamped and put. -/
  | angkutPut (rest : List Item)
  /-- `proses_nasi` at the top of its `while` loop. -/
  | nasiLoop
  /-- `proses_nasi` resumed after `yield antrian_nasi.get()`. -/
  | nasiGot (item : Item)
  /-- `proses_nasi` resumed after `yield req` (nasi server granted). -/
  | nasiGranted (item : Item)
  /-- `proses_nasi` resumed after `yield env.timeout(t)`. -/
  | nasiDone (item : Item) (mulai t : ℕ)
  deriving DecidableEq, Repr

/-- One entry of the simpy event heap: scheduled time, priority
(0 = `URGENT` for `Initialize`, 1 = `NORMAL`), insertion counter, and the
suspended generator to resume. -/
structure Event where
  time : ℕ
  prio : ℕ
  eid : ℕ
  proc : Proc
  deriving DecidableEq, Repr

/-- `simpy.Resource`: a capacity, the number of current users, and the FIFO
wait list of suspended requesters (stored as the continuation to schedule
when the request is granted). -/
structure Pool where
  capacity : ℕ
  users : ℕ
  queue : List Proc
  deriving DecidableEq, Repr

/-- The mutable state of a `PiketOmprengDES` object together with its
`simpy.Environment` (clock, event heap, counter of allocated event ids). -/
structure State where
  cfg : Config
  now : ℕ
  nextEid : ℕ
  events : List Event
  lauk : Pool
  angkut : Pool
  nasi : Pool
  antrian_lauk : List Item
  antrian_nasi : List Item
  data : List Row
  completed : ℕ
  busy_lauk : ℕ
  busy_angkut : ℕ
  busy_nasi : ℕ
  rngIdx : ℕ
  deriving DecidableEq, Repr

/-- simpy's heap order: lexicographic on `(time, prio, eid)`, strict. -/
def Event.before (a b : Event) : Bool :=
  a.time < b.time ∨ (a.time = b.time ∧
    (a.prio < b.prio ∨ (a.prio = b.prio ∧ a.eid < b.eid)))

/-- Ordered insertion into the (sorted) event list. -/
def insertEvent (e : Event) : List Event → List Event
  | [] => [e]
  | x :: xs => if e.before x then e :: x :: xs else x :: insertEvent e xs

/-- `env.schedule`: allocate the next event id and insert the resumption of
`p` at time `t` with priority `prio`. -/
def schedule (s : State) (t prio : ℕ) (p : Proc) : State :=
  { s with
    events := insertEvent ⟨t, prio, s.nextEid, p⟩ s.events
    nextEid := s.nextEid + 1 }

/-- `random.uniform(a, b)` (quarter seconds, one stream value `v`): a value
in the closed interval bounded by `a` and `b` (for `a > b` Python still
returns a value between `b` and `a`). -/
def uniformDraw (a b v : ℕ) : ℕ :=
  min a b + v % (max a b + 1 - min a b)

/-- `random.randint(a, b)`: `ValueError` (`none`) when `a > b`. -/
def randintDraw (a b v : ℕ) : Option ℕ :=
  if a ≤ b then some (a + v % (b + 1 - a)) else none

/-- `resource.request()` with free capacity grants at call time and schedules
the resumption; otherwise the requester joins the FIFO wait list
(`petugas_lauk`). -/
def requestLauk (s : State) (c : Proc) : State :=
  if s.lauk.users < s.lauk.capacity then
    schedule { s with lauk := { s.lauk with users := s.lauk.users + 1 } } s.now 1 c
  else
    { s with lauk := { s.lauk with queue := s.lauk.queue ++ [c] } }

/-- `resource.release(req)` for `petugas_lauk`: on exit of the `with` block
the user count drops and, if somebody is waiting, the head of the wait list
is granted (user count back up) and scheduled at the current instant. -/
def releaseLauk (s : State) : State :=
  match s.lauk.queue with
  | [] => { s with lauk := { s.lauk with users := s.lauk.users - 1 } }
  | c :: rest =>
      schedule { s with lauk := { s.lauk with queue := rest } } s.now 1 c

/-- `petugas_angkut.request()`. -/
def requestAngkut (s : State) (c : Proc) : State :=
  if s.angkut.users < s.angkut.capacity then
    schedule { s with angkut := { s.angkut with users := s.angkut.users + 1 } } s.now 1 c
  else
    { s with angkut := { s.angkut with queue := s.angkut.queue ++ [c] } }

/-- `petugas_angkut.release(req)`. -/
def releaseAngkut (s : State) : State :=
  match s.angkut.queue with
  | [] => { s with angkut := { s.angkut with users := s.angkut.users - 1 } }
  | c :: rest =>
      schedule { s with angkut := { s.angkut with queue := rest } } s.now 1 c

/-- `petugas_nasi.request()`. -/
def requestNasi (s : State) (c : Proc) : State :=
  if s.nasi.users < s.nasi.capacity then
    schedule { s with nasi := { s.nasi with users := s.nasi.users + 1 } } s.now 1 c
  else
    { s with nasi := { s.nasi with queue := s.nasi.queue ++ [c] } }

/-- `petugas_nasi.release(req)`. -/
def releaseNasi (s : State) : State :=
  match s.nasi.queue with
  | [] => { s with nasi := { s.nasi with users := s.nasi.users - 1 } }
  | c :: rest =>
      schedule { s with nasi := { s.nasi with queue := rest } } s.now 1 c

/-- The top of `proses_angkut`'s `while` loop (reached from its own poll
timeout, or synchronously after the last `antrian_nasi.put` of a batch):
exit when `completed ≥ TOTAL_OMPRENG`; poll 0.5 s (= 2) when `antrian_lauk`
is empty; otherwise draw `kapasitas = randint(ANGKUT_MIN_LOAD,
ANGKUT_MAX_LOAD)` and issue the first of `min(kapasitas, len(items))` store
gets (a get on a non-empty store removes the head at call time), or, when
that count is `0`, request the angkut server with an empty batch.
`none` is the `ValueError` of `randint` for `MIN_LOAD > MAX_LOAD`. -/
def angkutLoopStep (g : ℕ → ℕ) (s : State) : Option State :=
  if s.cfg.TOTAL_OMPRENG ≤ s.completed then some s
  else
    match s.antrian_lauk with
    | [] => some (schedule s (s.now + 2) 1 .angkutLoop)
    | h :: t =>
        match randintDraw s.cfg.ANGKUT_MIN_LOAD s.cfg.ANGKUT_MAX_LOAD (g s.rngIdx) with
        | none => none
        | some kap =>
            let s' := { s with rngIdx := s.rngIdx + 1 }
            match min kap (h :: t).length with
            | 0 => some (requestAngkut s' (.angkutGranted []))
            | k + 1 =>
                some (schedule { s' with antrian_lauk := t } s'.now 1
                  (.angkutDrain k [h]))

/-- The `for item in batch` put loop of `proses_angkut`: each iteration
stamps `item["selesai_angkut"] = env.now`, appends the item to
`antrian_nasi` (a store put succeeds at call time) and suspends on the put
event; when the batch is exhausted the `while` loop continues synchronously. -/
def angkutPutStep (g : ℕ → ℕ) (batch : List Item) (s : State) : Option State :=
  match batch with
  | [] => angkutLoopStep g s
  | h :: rest =>
      some (schedule
        { s with antrian_nasi := s.antrian_nasi ++ [{ h with selesai_angkut := some s.now }] }
        s.now 1 (.angkutPut rest))

/-- The top of `proses_nasi`'s `while` loop (reached from its poll timeout or
synchronously after `completed += 1`): exit when `completed ≥ TOTAL_OMPRENG`;
poll 0.5 s when `antrian_nasi` is empty; otherwise the store get removes the
head at call time and the process suspends on the get event. -/
def nasiLoopStep (s : State) : State :=
  if s.cfg.TOTAL_OMPRENG ≤ s.completed then s
  else
    match s.antrian_nasi with
    | [] => schedule s (s.now + 2) 1 .nasiLoop
    | h :: t => schedule { s with antrian_nasi := t } s.now 1 (.nasiGot h)

/-- Resuming one suspended generator: the branch of each constructor is the
code of `src/app.py` between that suspension point and the next `yield`
(or generator exit).  `none` is an uncaught Python exception
(`random.randint` with an inverted range). -/
def dispatch (g : ℕ → ℕ) : Proc → State → Option State
  | .gen i, s =>
      -- `for i in range(TOTAL_OMPRENG): env.process(proses_ompreng(i));
      --  yield env.timeout(0)` — the `Initialize` event is URGENT (prio 0).
      if i < s.cfg.TOTAL_OMPRENG then
        some (schedule (schedule s s.now 0 (.ompStart i)) s.now 1 (.gen (i + 1)))
      else some s
  | .ompStart i, s =>
      -- `datang = env.now`, then `petugas_lauk.request()`.
      some (requestLauk s (.ompGranted i s.now))
  | .ompGranted i datang, s =>
      -- `mulai_lauk = env.now; t = waktu_lauk(); yield env.timeout(t)`.
      let t := uniformDraw s.cfg.LAUK_MIN_TIME s.cfg.LAUK_MAX_TIME (g s.rngIdx)
      some (schedule { s with rngIdx := s.rngIdx + 1 } (s.now + t) 1
        (.ompServiceDone i datang s.now t))
  | .ompServiceDone i datang mulai t, s =>
      -- `with` exit releases the server, `busy_lauk += t`, then
      -- `yield antrian_lauk.put({...})` (append at call time).
      let s1 := releaseLauk s
      let s2 := { s1 with busy_lauk := s1.busy_lauk + t }
      some (schedule
        { s2 with antrian_lauk := s2.antrian_lauk ++ [⟨i, datang, mulai, s2.now, none⟩] }
        s2.now 1 .nop)
  | .nop, s => some s
  | .angkutLoop, s => angkutLoopStep g s
  | .angkutDrain k batch, s =>
      match k with
      | 0 => some (requestAngkut s (.angkutGranted batch))
      | k' + 1 =>
          match s.antrian_lauk with
          | [] => some (requestAngkut s (.angkutGranted batch))
          | h :: t =>
              some (schedule { s with antrian_lauk := t } s.now 1
                (.angkutDrain k' (batch ++ [h])))
  | .angkutGranted batch, s =>
      -- `t = waktu_angkut(); yield env.timeout(t)`.
      let t := uniformDraw s.cfg.ANGKUT_MIN_TIME s.cfg.ANGKUT_MAX_TIME (g s.rngIdx)
      some (schedule { s with rngIdx := s.rngIdx + 1 } (s.now + t) 1
        (.angkutDone batch t))
  | .angkutDone batch t, s =>
      -- `with` exit releases the server, `busy_angkut += t`, then the put
      -- loop starts with the first item of the batch.
      let s1 := releaseAngkut s
      angkutPutStep g batch { s1 with busy_angkut := s1.busy_angkut + t }
  | .angkutPut rest, s => angkutPutStep g rest s
  | .nasiLoop, s => some (nasiLoopStep s)
  | .nasiGot item, s =>
      some (requestNasi s (.nasiGranted item))
  | .nasiGranted item, s =>
      -- `mulai_nasi = env.now; t = waktu_nasi(); yield env.timeout(t)`.
      let t := uniformDraw s.cfg.NASI_MIN_TIME s.cfg.NASI_MAX_TIME (g s.rngIdx)
      some (schedule { s with rngIdx := s.rngIdx + 1 } (s.now + t) 1
        (.nasiDone item s.now t))
  | .nasiDone item mulai t, s =>
      -- release, `busy_nasi += t`, `selesai = env.now`, append the row,
      -- `completed += 1`, then the `while` loop continues synchronously.
      let s1 := releaseNasi s
      let s2 := { s1 with busy_nasi := s1.busy_nasi + t }
      let row : Row :=
        ⟨item.id, item.mulai_lauk, item.selesai_lauk, mulai, s2.now,
          s2.now - item.datang, s2.cfg.startOffset + s2.now⟩
      some (nasiLoopStep
        { s2 with data := s2.data ++ [row], completed := s2.completed + 1 })

/-- Result of one scheduler step. -/
inductive StepRes where
  | finished (s : State)
  | running (s : State)
  | failed
  deriving DecidableEq, Repr

/-- One iteration of `env.run()`'s event loop: pop the earliest event
(the head of the sorted list), advance `now` to its time, resume its
generator.  An empty heap ends the run. -/
def step (g : ℕ → ℕ) (s : State) : StepRes :=
  match s.events with
  | [] => .finished s
  | e :: rest =>
      match dispatch g e.proc { s with now := e.time, events := rest } with
      | some s' => .running s'
      | none => .failed

/-- `n` successful scheduler steps (`none` if the run ends or fails first). -/
def stepsTo (g : ℕ → ℕ) : ℕ → State → Option State
  | 0, s => some s
  | n + 1, s =>
      match step g s with
      | .running s' => stepsTo g n s'
      | _ => none

/-- `env.run()` with fuel: iterate until the event heap is empty. -/
def runEnv (g : ℕ → ℕ) : ℕ → State → Option State
  | 0, _ => none
  | n + 1, s =>
      match step g s with
      | .finished s' => some s'
      | .running s' => runEnv g n s'
      | .failed => none

/-- `PiketOmprengDES.__init__(config)`: build the pools, empty stores and
counters.  `simpy.Resource` raises `ValueError` for `capacity <= 0`, so a
zero server count makes the constructor fail (`none`).  No other field of
the configuration is validated. -/
def initModel (c : Config) : Option State :=
  if c.PETUGAS_LAUK = 0 ∨ c.PETUGAS_ANGKUT = 0 ∨ c.PETUGAS_NASI = 0 then none
  else some
    { cfg := c
      now := 0
      nextEid := 0
      events := []
      lauk := ⟨c.PETUGAS_LAUK, 0, []⟩
      angkut := ⟨c.PETUGAS_ANGKUT, 0, []⟩
      nasi := ⟨c.PETUGAS_NASI, 0, []⟩
      antrian_lauk := []
      antrian_nasi := []
      data := []
      completed := 0
      busy_lauk := 0
      busy_angkut := 0
      busy_nasi := 0
      rngIdx := 0 }

/-- The three `env.process(...)` calls of `PiketOmprengDES.run()`, in program
order: `generate`, `proses_angkut`, `proses_nasi`, each an URGENT
`Initialize` event at time 0. -/
def startProcs (s : State) : State :=
  schedule (schedule (schedule s 0 0 (.gen 0)) 0 0 .angkutLoop) 0 0 .nasiLoop

/-- The state in which `env.run()` starts. -/
def runState (c : Config) : Option State :=
  (initModel c).map startProcs

/-- The dict returned by `analyze_results` (first component of its result;
`avg_total_time` is `df["total_waktu"].mean()`, a float, modelled in `ℚ`). -/
structure Results where
  durasi_total_detik : ℕ
  avg_total_time : ℚ
  total_ompreng : ℕ
  deriving DecidableEq, Repr

/-- `PiketOmprengDES.analyze_results` on `self.data`: `pd.DataFrame(self.data)`
followed by `max`, `mean` and `len` of the `total_waktu` column.  On an empty
run the frame has no columns, so `df["total_waktu"]` raises `KeyError`
(`none`); no guard exists in the source. -/
def analyze_results (data : List Row) : Option Results :=
  match data with
  | [] => none
  | _ =>
      some
        { durasi_total_detik := (data.map Row.total_waktu).foldr max 0
          avg_total_time :=
            (((data.map Row.total_waktu).foldr (· + ·) 0 : ℕ) : ℚ) / data.length
          total_ompreng := data.length }

/-- `PiketOmprengDES.run()` driven from a fresh object, as executed by the
UI for one button press: seed-determined stream `g`, construct, run the
environment to exhaustion, then `analyze_results`.  The result is the pair
`(results, df)` (the data frame modelled by the row list). -/
def runModel (gen : ℕ → ℕ → ℕ) (fuel : ℕ) (c : Config) :
    Option (Option Results × List Row) :=
  (runState c).bind fun s0 =>
    (runEnv (gen c.RANDOM_SEED) fuel s0).map fun s =>
      (analyze_results s.data, s.data)

/-! ## Derived observations of a run -/

/-- Does the suspension point belong to the `proses_angkut` generator
(the transport worker loop)? -/
def isTransportLoopProc : Proc → Bool
  | .angkutLoop => true
  | .angkutDrain _ _ => true
  | .angkutGranted _ => true
  | .angkutDone _ _ => true
  | .angkutPut _ => true
  | _ => false

/-- Does the suspension point belong to the `proses_nasi` generator
(the finish worker loop)? -/
def isFinishLoopProc : Proc → Bool
  | .nasiLoop => true
  | .nasiGot _ => true
  | .nasiGranted _ => true
  | .nasiDone _ _ _ => true
  | _ => false

/-- Is the suspension point one at which `proses_angkut` holds a granted
angkut server (between the grant of `yield req` and the `with` exit)? -/
def holdsAngkutProc : Proc → Bool
  | .angkutGranted _ => true
  | .angkutDone _ _ => true
  | _ => false

/-- Number of pending resumptions of the transport worker loop. -/
def transportWorkerCount (s : State) : ℕ :=
  s.events.countP fun e => isTransportLoopProc e.proc

/-- Number of pending resumptions of the finish worker loop. -/
def finishWorkerCount (s : State) : ℕ :=
  s.events.countP fun e => isFinishLoopProc e.proc

/-- A state reachable during `env.run()` of a freshly constructed
`PiketOmprengDES` (stream `g`, configuration `c`): some number of scheduler
steps after the three processes were started. -/
def Reachable (g : ℕ → ℕ) (c : Config) (s : State) : Prop :=
  ∃ s₀ n, runState c = some s₀ ∧ stepsTo g n s₀ = some s

/-! ## Concrete configurations used by the claims -/

/-- A throw-away state used as the `none` fallback of concrete `match`es. -/
def dummyState : State :=
  { cfg := {}, now := 0, nextEid := 0, events := [],
    lauk := ⟨1, 0, []⟩, angkut := ⟨1, 0, []⟩, nasi := ⟨1, 0, []⟩,
    antrian_lauk := [], antrian_nasi := [], data := [],
    completed := 0, busy_lauk := 0, busy_angkut := 0, busy_nasi := 0,
    rngIdx := 0 }

/-- The all-zero random stream (every degenerate range makes the draws
independent of the stream anyway). -/
def zStream : ℕ → ℕ := fun _ => 0

/-- The degenerate scenario of the claim: 6 units, one server per stage,
prep 10 s (= 40), transport 5 s (= 20), batch range [6,6], finish 5 s. -/
def scenarioConfig : Config :=
  { NUM_MEJA := 6, MAHASISWA_PER_MEJA := 1,
    PETUGAS_LAUK := 1, PETUGAS_ANGKUT := 1, PETUGAS_NASI := 1,
    LAUK_MIN_TIME := 40, LAUK_MAX_TIME := 40,
    ANGKUT_MIN_TIME := 20, ANGKUT_MAX_TIME := 20,
    ANGKUT_MIN_LOAD := 6, ANGKUT_MAX_LOAD := 6,
    NASI_MIN_TIME := 20, NASI_MAX_TIME := 20 }

/-- The state in which `env.run()` starts for `scenarioConfig`. -/
def scenarioStart : State :=
  match runState scenarioConfig with
  | some s => s
  | none => dummyState

/-- The terminal state of the `scenarioConfig` run (235 scheduler steps). -/
def scenarioFinal : State :=
  match stepsTo zStream 235 scenarioStart with
  | some s => s
  | none => dummyState

/-- `scenarioConfig` with the transport service time lowered from 5 s to
4.75 s (= 19 quarter seconds); every other parameter unchanged. -/
def scenarioConfigB : Config :=
  { scenarioConfig with ANGKUT_MIN_TIME := 19, ANGKUT_MAX_TIME := 19 }

/-- The state in which `env.run()` starts for `scenarioConfigB`. -/
def scenarioStartB : State :=
  match runState scenarioConfigB with
  | some s => s
  | none => dummyState

/-- A configuration with zero total units (`NUM_MEJA = 0`). -/
def zeroUnitConfig : Config := { NUM_MEJA := 0 }

/-- `scenarioConfig` with an inverted prep service-time range
(12 s > 10 s). -/
def invertedPrepConfig : Config :=
  { scenarioConfig with LAUK_MIN_TIME := 48, LAUK_MAX_TIME := 40 }

/-- `scenarioConfig` with an inverted transport batch-size range (7 > 6). -/
def invertedLoadConfig : Config :=
  { scenarioConfig with ANGKUT_MIN_LOAD := 7, ANGKUT_MAX_LOAD := 6 }

/-! ## Helper lemmas -/

/-- Every element of a list of naturals is bounded by `foldr max 0`. -/
theorem le_foldr_max (xs : List ℕ) : ∀ x ∈ xs, x ≤ xs.foldr max 0 := by
  induction xs with
  | nil => simp
  | cons y ys ih =>
      intro x hx
      rcases List.mem_cons.1 hx with h | h
      · subst h; exact le_max_left _ _
      · exact le_trans (ih x h) (le_max_right _ _)

/-! ## Claim C1 -/

/-- Claim C1, counterexample: in the degenerate scenario of the claim
(seed irrelevant, all ranges degenerate), the run completes all six units
with finish completion times 20, 30, 40, 50, 60, 70 seconds (80…280 quarter
seconds), not the claimed 70, 75, 80, 85, 90, 95 seconds (280…380): the
transport worker drains each unit as soon as it leaves prep instead of
holding all six until `t = 60`. -/
theorem c1_scenario_counterexample :
    runState scenarioConfig = some scenarioStart ∧
    (runEnv zStream 300 scenarioStart).map (fun s => s.data.map Row.selesai_nasi)
      = some [80, 120, 160, 200, 240, 280] ∧
    ([80, 120, 160, 200, 240, 280] : List ℕ) ≠ [280, 300, 320, 340, 360, 380] := by
  refine ⟨by decide, by decide, by decide⟩

/-- Claim C1, amended: in the degenerate scenario the six units do get
`prep_end` values 10, 20, 30, 40, 50, 60 seconds (40…240 quarter seconds,
strictly serial prep), but the transport stage carries each unit in its own
batch of size 1 — six transport services of 5 s each, total transport busy
time 30 s (= 120), the i-th ending at 15+10·i seconds — and the finish stage
starts unit i at 15+10·i s and completes it at 20+10·i s, so the completion
times are 20, 30, 40, 50, 60, 70 seconds. -/
theorem c1_scenario_amended :
    runState scenarioConfig = some scenarioStart ∧
    (runEnv zStream 300 scenarioStart).map (fun s => (s.data, s.busy_angkut)) =
      some ([⟨0, 0, 40, 60, 80, 80, 100880⟩,
             ⟨1, 40, 80, 100, 120, 120, 100920⟩,
             ⟨2, 80, 120, 140, 160, 160, 100960⟩,
             ⟨3, 120, 160, 180, 200, 200, 101000⟩,
             ⟨4, 160, 200, 220, 240, 240, 101040⟩,
             ⟨5, 200, 240, 260, 280, 280, 101080⟩], 120) := by
  refine ⟨by decide, by decide⟩

/-! ## Claim C2 -/

/-- Claim C2, counterexample: with the default configuration
(`PETUGAS_ANGKUT = 2`, `PETUGAS_NASI = 2`), `run()` spawns exactly one
transport worker loop and one finish worker loop at time 0, not a pool whose
size matches the configured server counts. -/
theorem c2_single_loop_counterexample :
    ∃ s, runState {} = some s ∧
      transportWorkerCount s = 1 ∧ finishWorkerCount s = 1 ∧
      ({} : Config).PETUGAS_ANGKUT = 2 ∧ ({} : Config).PETUGAS_NASI = 2 ∧
      (1 : ℕ) ≠ 2 := by
  refine ⟨startProcs (⟨{}, 0, 0, [], ⟨3, 0, []⟩, ⟨2, 0, []⟩, ⟨2, 0, []⟩,
    [], [], [], 0, 0, 0, 0, 0⟩ : State), by decide, by decide, by decide,
    by decide, by decide, by decide⟩

/-- Claim C2, amended: for every configuration accepted by the constructor,
`run()` schedules exactly one `proses_angkut` worker loop and exactly one
`proses_nasi` worker loop at time 0 (as URGENT initialization events),
regardless of `PETUGAS_ANGKUT` and `PETUGAS_NASI`; the configured counts
only set the capacities of the two `simpy.Resource` pools. -/
theorem c2_single_loop_amended (c : Config) (s : State)
    (h : runState c = some s) :
    transportWorkerCount s = 1 ∧ finishWorkerCount s = 1 ∧
    s.angkut.capacity = c.PETUGAS_ANGKUT ∧ s.nasi.capacity = c.PETUGAS_NASI := by
  unfold runState at h
  cases hin : initModel c with
  | none => rw [hin] at h; cases h
  | some s0 =>
      rw [hin, Option.map_some'] at h
      have hs := Option.some.inj h
      subst hs
      unfold initModel at hin
      split at hin
      · cases hin
      · have hs0 := Option.some.inj hin
        subst hs0
        exact ⟨rfl, rfl, rfl, rfl⟩

/-- Claim C2, witness for the amended theorem at the default configuration. -/
theorem c2_single_loop_witness :
    transportWorkerCount (startProcs (⟨{}, 0, 0, [], ⟨3, 0, []⟩, ⟨2, 0, []⟩,
      ⟨2, 0, []⟩, [], [], [], 0, 0, 0, 0, 0⟩ : State)) = 1 ∧
    finishWorkerCount (startProcs (⟨{}, 0, 0, [], ⟨3, 0, []⟩, ⟨2, 0, []⟩,
      ⟨2, 0, []⟩, [], [], [], 0, 0, 0, 0, 0⟩ : State)) = 1 ∧
    (startProcs (⟨{}, 0, 0, [], ⟨3, 0, []⟩, ⟨2, 0, []⟩, ⟨2, 0, []⟩,
      [], [], [], 0, 0, 0, 0, 0⟩ : State)).angkut.capacity = ({} : Config).PETUGAS_ANGKUT ∧
    (startProcs (⟨{}, 0, 0, [], ⟨3, 0, []⟩, ⟨2, 0, []⟩, ⟨2, 0, []⟩,
      [], [], [], 0, 0, 0, 0, 0⟩ : State)).nasi.capacity = ({} : Config).PETUGAS_NASI :=
  c2_single_loop_amended {} _ (by decide)

/-! ## Claim C5 -/

/-- Claim C5, counterexample: the runs of `scenarioConfig` (transport 5 s)
and `scenarioConfigB` (transport 4.75 s) produce bit-identical results and
result tables, yet their transport pools accumulate different busy times
(120 vs 114 quarter seconds), hence different transport utilizations.
Per-stage utilization is therefore not part of (and not recoverable from)
the output of `analyze_results`; the engine result only carries the max
latency, the mean latency and the unit count. -/
theorem c5_no_utilization_counterexample :
    runState scenarioConfig = some scenarioStart ∧
    runState scenarioConfigB = some scenarioStartB ∧
    (runEnv zStream 300 scenarioStart).map State.data
      = (runEnv zStream 300 scenarioStartB).map State.data ∧
    (runEnv zStream 300 scenarioStart).map (fun s => analyze_results s.data)
      = (runEnv zStream 300 scenarioStartB).map (fun s => analyze_results s.data) ∧
    (runEnv zStream 300 scenarioStart).map State.busy_angkut = some 120 ∧
    (runEnv zStream 300 scenarioStartB).map State.busy_angkut = some 114 ∧
    some (120 : ℕ) ≠ some (114 : ℕ) := by
  have hdata : (runEnv zStream 300 scenarioStart).map State.data
      = (runEnv zStream 300 scenarioStartB).map State.data := by decide
  have hres := congrArg (Option.map analyze_results) hdata
  rw [Option.map_map, Option.map_map] at hres
  exact ⟨by decide, by decide, hdata, hres, by decide, by decide, by decide⟩

/-- Claim C5, amended: the run-level output of `analyze_results` consists of
exactly three aggregates — `durasi_total_detik` (the maximum of the
`total_waktu` column), `avg_total_time` (its mean) and `total_ompreng` (the
record count) — and contains no per-stage utilization for any pool. -/
theorem c5_aggregates_amended (l : List Row) (h : l ≠ []) :
    analyze_results l =
      some { durasi_total_detik := (l.map Row.total_waktu).foldr max 0
             avg_total_time := ((l.map Row.total_waktu).sum : ℚ) / l.length
             total_ompreng := l.length } ∧
    ∀ r ∈ l, r.total_waktu ≤ (l.map Row.total_waktu).foldr max 0 := by
  constructor
  · match l, h with
    | x :: xs, _ => rfl
  · intro r hr
    exact le_foldr_max _ _ (List.mem_map_of_mem Row.total_waktu hr)

/-- Claim C5, witness for the amended theorem on a one-row table. -/
theorem c5_aggregates_witness :
    ([(⟨0, 0, 40, 60, 80, 80, 100880⟩ : Row)] ≠ []) ∧
    (analyze_results [(⟨0, 0, 40, 60, 80, 80, 100880⟩ : Row)] =
      some { durasi_total_detik := ([(⟨0, 0, 40, 60, 80, 80, 100880⟩ : Row)].map
               Row.total_waktu).foldr max 0
             avg_total_time := (([(⟨0, 0, 40, 60, 80, 80, 100880⟩ : Row)].map
               Row.total_waktu).sum : ℚ) / [(⟨0, 0, 40, 60, 80, 80, 100880⟩ : Row)].length
             total_ompreng := [(⟨0, 0, 40, 60, 80, 80, 100880⟩ : Row)].length } ∧
      ∀ r ∈ [(⟨0, 0, 40, 60, 80, 80, 100880⟩ : Row)],
        r.total_waktu ≤ ([(⟨0, 0, 40, 60, 80, 80, 100880⟩ : Row)].map
          Row.total_waktu).foldr max 0) :=
  ⟨by decide, c5_aggregates_amended _ (by decide)⟩

/-! ## Claim C6 -/

/-- Claim C6: with zero total units the run itself terminates immediately
with an empty result list, but `analyze_results` then fails
(`pd.DataFrame([])` has no columns, so `df["total_waktu"]` raises
`KeyError`, the `none` of the embedding) instead of returning `NaN`
aggregates as the claim (and spec §7) requires: the guard the spec demands
is missing from the code. -/
theorem c6_zero_units_error :
    ((runState zeroUnitConfig).bind (runEnv zStream 10)).map
        (fun s => (s.data, analyze_results s.data)) = some ([], none) ∧
    runModel (fun _ _ => 0) 10 zeroUnitConfig = some (none, []) := by
  refine ⟨by decide, by decide⟩

/-! ## Claim C7 -/

/-- Claim C7, counterexample: `invertedPrepConfig` has a service-time range
with min > max (prep 12 s > 10 s) — invalid per the claim — yet the
constructor accepts it and the run proceeds to completion with all six
units processed (`random.uniform` silently draws from the inverted range);
nothing rejects the configuration before the run starts. -/
theorem c7_validation_counterexample :
    (initModel invertedPrepConfig).isSome = true ∧
    ((runState invertedPrepConfig).bind (runEnv zStream 300)).map
        (fun s => s.data.length) = some 6 := by
  refine ⟨by decide, by decide⟩

/-- Claim C7, amended: the only configurations rejected synchronously at
construction are those with a zero server count (`simpy.Resource` raises
`ValueError` for `capacity <= 0`).  An inverted transport batch-size range
is accepted at construction and only fails mid-run, at the first
`random.randint` draw of `proses_angkut` (after 55 scheduler steps in the
scenario configuration); a zero unit count is accepted and the run
completes (failing only later, inside `analyze_results`). -/
theorem c7_validation_amended :
    (∀ c : Config, initModel c = none ↔
      (c.PETUGAS_LAUK = 0 ∨ c.PETUGAS_ANGKUT = 0 ∨ c.PETUGAS_NASI = 0)) ∧
    (initModel invertedLoadConfig).isSome = true ∧
    (runState invertedLoadConfig).map
        (fun s => (stepsTo zStream 55 s).map (step zStream)) = some (some .failed) ∧
    (initModel zeroUnitConfig).isSome = true := by
  refine ⟨?_, by decide, by decide, by decide⟩
  intro c
  unfold initModel
  split
  · simp_all
  · simp_all

/-! ## Claim C9 -/

/-- Claim C9: for a fixed stream generator (the model of Python's global
`random` module, reseeded from `RANDOM_SEED` in each constructor call) and
equal configuration records, two independent constructions followed by
`run()` produce identical outputs — the whole result table, record for
record and field for field, together with the aggregates. -/
theorem c9_determinism (gen : ℕ → ℕ → ℕ) (fuel : ℕ) (c₁ c₂ : Config)
    (h : c₁ = c₂) :
    runModel gen fuel c₁ = runModel gen fuel c₂ := by
  rw [h]

/-- Claim C9, witness: two runs of the scenario configuration. -/
theorem c9_determinism_witness :
    (scenarioConfig = scenarioConfig) ∧
    runModel (fun _ _ => 0) 300 scenarioConfig
      = runModel (fun _ _ => 0) 300 scenarioConfig :=
  ⟨rfl, c9_determinism (fun _ _ => 0) 300 scenarioConfig scenarioConfig rfl⟩

/-! ## Field lemmas for the state helpers -/

theorem schedule_cfg (s : State) (t p : ℕ) (c : Proc) : (schedule s t p c).cfg = s.cfg := rfl

theorem schedule_now (s : State) (t p : ℕ) (c : Proc) : (schedule s t p c).now = s.now := rfl

theorem schedule_events (s : State) (t p : ℕ) (c : Proc) :
    (schedule s t p c).events = insertEvent ⟨t, p, s.nextEid, c⟩ s.events := rfl

theorem schedule_lauk (s : State) (t p : ℕ) (c : Proc) : (schedule s t p c).lauk = s.lauk := rfl

theorem schedule_angkut (s : State) (t p : ℕ) (c : Proc) : (schedule s t p c).angkut = s.angkut := rfl

theorem schedule_nasi (s : State) (t p : ℕ) (c : Proc) : (schedule s t p c).nasi = s.nasi := rfl

theorem schedule_antrian_lauk (s : State) (t p : ℕ) (c : Proc) :
    (schedule s t p c).antrian_lauk = s.antrian_lauk := rfl

theorem schedule_antrian_nasi (s : State) (t p : ℕ) (c : Proc) :
    (schedule s t p c).antrian_nasi = s.antrian_nasi := rfl

theorem schedule_data (s : State) (t p : ℕ) (c : Proc) : (schedule s t p c).data = s.data := rfl

theorem schedule_completed (s : State) (t p : ℕ) (c : Proc) :
    (schedule s t p c).completed = s.completed := rfl

theorem requestLauk_cfg (s : State) (c : Proc) : (requestLauk s c).cfg = s.cfg := by
  unfold requestLauk; split <;> rfl

theorem requestLauk_now (s : State) (c : Proc) : (requestLauk s c).now = s.now := by
  unfold requestLauk; split <;> rfl

theorem requestLauk_angkut (s : State) (c : Proc) : (requestLauk s c).angkut = s.angkut := by
  unfold requestLauk; split <;> rfl

theorem requestLauk_nasi (s : State) (c : Proc) : (requestLauk s c).nasi = s.nasi := by
  unfold requestLauk; split <;> rfl

theorem requestLauk_antrian_lauk (s : State) (c : Proc) :
    (requestLauk s c).antrian_lauk = s.antrian_lauk := by
  unfold requestLauk; split <;> rfl

theorem requestLauk_antrian_nasi (s : State) (c : Proc) :
    (requestLauk s c).antrian_nasi = s.antrian_nasi := by
  unfold requestLauk; split <;> rfl

theorem requestLauk_data (s : State) (c : Proc) : (requestLauk s c).data = s.data := by
  unfold requestLauk; split <;> rfl

theorem requestLauk_completed (s : State) (c : Proc) :
    (requestLauk s c).completed = s.completed := by
  unfold requestLauk; split <;> rfl

theorem requestAngkut_cfg (s : State) (c : Proc) : (requestAngkut s c).cfg = s.cfg := by
  unfold requestAngkut; split <;> rfl

theorem requestAngkut_now (s : State) (c : Proc) : (requestAngkut s c).now = s.now := by
  unfold requestAngkut; split <;> rfl

theorem requestAngkut_lauk (s : State) (c : Proc) : (requestAngkut s c).lauk = s.lauk := by
  unfold requestAngkut; split <;> rfl

theorem requestAngkut_nasi (s : State) (c : Proc) : (requestAngkut s c).nasi = s.nasi := by
  unfold requestAngkut; split <;> rfl

theorem requestAngkut_antrian_lauk (s : State) (c : Proc) :
    (requestAngkut s c).antrian_lauk = s.antrian_lauk := by
  unfold requestAngkut; split <;> rfl

theorem requestAngkut_antrian_nasi (s : State) (c : Proc) :
    (requestAngkut s c).antrian_nasi = s.antrian_nasi := by
  unfold requestAngkut; split <;> rfl

theorem requestAngkut_data (s : State) (c : Proc) : (requestAngkut s c).data = s.data := by
  unfold requestAngkut; split <;> rfl

theorem requestAngkut_completed (s : State) (c : Proc) :
    (requestAngkut s c).completed = s.completed := by
  unfold requestAngkut; split <;> rfl

theorem requestNasi_cfg (s : State) (c : Proc) : (requestNasi s c).cfg = s.cfg := by
  unfold requestNasi; split <;> rfl

theorem requestNasi_now (s : State) (c : Proc) : (requestNasi s c).now = s.now := by
  unfold requestNasi; split <;> rfl

theorem requestNasi_lauk (s : State) (c : Proc) : (requestNasi s c).lauk = s.lauk := by
  unfold requestNasi; split <;> rfl

theorem requestNasi_angkut (s : State) (c : Proc) : (requestNasi s c).angkut = s.angkut := by
  unfold requestNasi; split <;> rfl

theorem requestNasi_antrian_lauk (s : State) (c : Proc) :
    (requestNasi s c).antrian_lauk = s.antrian_lauk := by
  unfold requestNasi; split <;> rfl

theorem requestNasi_antrian_nasi (s : State) (c : Proc) :
    (requestNasi s c).antrian_nasi = s.antrian_nasi := by
  unfold requestNasi; split <;> rfl

theorem requestNasi_data (s : State) (c : Proc) : (requestNasi s c).data = s.data := by
  unfold requestNasi; split <;> rfl

theorem requestNasi_completed (s : State) (c : Proc) :
    (requestNasi s c).completed = s.completed := by
  unfold requestNasi; split <;> rfl

theorem releaseLauk_cfg (s : State) : (releaseLauk s).cfg = s.cfg := by
  unfold releaseLauk; split <;> rfl

theorem releaseLauk_now (s : State) : (releaseLauk s).now = s.now := by
  unfold releaseLauk; split <;> rfl

theorem releaseLauk_angkut (s : State) : (releaseLauk s).angkut = s.angkut := by
  unfold releaseLauk; split <;> rfl

theorem releaseLauk_nasi (s : State) : (releaseLauk s).nasi = s.nasi := by
  unfold releaseLauk; split <;> rfl

theorem releaseLauk_antrian_lauk (s : State) :
    (releaseLauk s).antrian_lauk = s.antrian_lauk := by
  unfold releaseLauk; split <;> rfl

theorem releaseLauk_antrian_nasi (s : State) :
    (releaseLauk s).antrian_nasi = s.antrian_nasi := by
  unfold releaseLauk; split <;> rfl

theorem releaseLauk_data (s : State) : (releaseLauk s).data = s.data := by
  unfold releaseLauk; split <;> rfl

theorem releaseLauk_completed (s : State) : (releaseLauk s).completed = s.completed := by
  unfold releaseLauk; split <;> rfl

theorem releaseAngkut_cfg (s : State) : (releaseAngkut s).cfg = s.cfg := by
  unfold releaseAngkut; split <;> rfl

theorem releaseAngkut_now (s : State) : (releaseAngkut s).now = s.now := by
  unfold releaseAngkut; split <;> rfl

theorem releaseAngkut_lauk (s : State) : (releaseAngkut s).lauk = s.lauk := by
  unfold releaseAngkut; split <;> rfl

theorem releaseAngkut_nasi (s : State) : (releaseAngkut s).nasi = s.nasi := by
  unfold releaseAngkut; split <;> rfl

theorem releaseAngkut_antrian_lauk (s : State) :
    (releaseAngkut s).antrian_lauk = s.antrian_lauk := by
  unfold releaseAngkut; split <;> rfl

theorem releaseAngkut_antrian_nasi (s : State) :
    (releaseAngkut s).antrian_nasi = s.antrian_nasi := by
  unfold releaseAngkut; split <;> rfl

theorem releaseAngkut_data (s : State) : (releaseAngkut s).data = s.data := by
  unfold releaseAngkut; split <;> rfl

theorem releaseAngkut_completed (s : State) : (releaseAngkut s).completed = s.completed := by
  unfold releaseAngkut; split <;> rfl

theorem releaseNasi_cfg (s : State) : (releaseNasi s).cfg = s.cfg := by
  unfold releaseNasi; split <;> rfl

theorem releaseNasi_now (s : State) : (releaseNasi s).now = s.now := by
  unfold releaseNasi; split <;> rfl

theorem releaseNasi_lauk (s : State) : (releaseNasi s).lauk = s.lauk := by
  unfold releaseNasi; split <;> rfl

theorem releaseNasi_angkut (s : State) : (releaseNasi s).angkut = s.angkut := by
  unfold releaseNasi; split <;> rfl

theorem releaseNasi_antrian_lauk (s : State) :
    (releaseNasi s).antrian_lauk = s.antrian_lauk := by
  unfold releaseNasi; split <;> rfl

theorem releaseNasi_antrian_nasi (s : State) :
    (releaseNasi s).antrian_nasi = s.antrian_nasi := by
  unfold releaseNasi; split <;> rfl

theorem releaseNasi_data (s : State) : (releaseNasi s).data = s.data := by
  unfold releaseNasi; split <;> rfl

theorem releaseNasi_completed (s : State) : (releaseNasi s).completed = s.completed := by
  unfold releaseNasi; split <;> rfl

theorem nasiLoopStep_cfg (s : State) : (nasiLoopStep s).cfg = s.cfg := by
  unfold nasiLoopStep; split
  · rfl
  · split <;> rfl

theorem nasiLoopStep_data (s : State) : (nasiLoopStep s).data = s.data := by
  unfold nasiLoopStep; split
  · rfl
  · split <;> rfl

theorem nasiLoopStep_completed (s : State) : (nasiLoopStep s).completed = s.completed := by
  unfold nasiLoopStep; split
  · rfl
  · split <;> rfl

/-! ## Claim C10: the completed counter mirrors the result list -/

theorem angkutLoopStep_completed_data (g : ℕ → ℕ) (s s2 : State)
    (h : angkutLoopStep g s = some s2) :
    s2.completed = s.completed ∧ s2.data = s.data := by
  unfold angkutLoopStep at h
  split at h
  · obtain rfl := Option.some.inj h
    exact ⟨rfl, rfl⟩
  · split at h
    · obtain rfl := Option.some.inj h
      exact ⟨schedule_completed .., schedule_data ..⟩
    · split at h
      · cases h
      · split at h
        · obtain rfl := Option.some.inj h
          exact ⟨requestAngkut_completed .., requestAngkut_data ..⟩
        · obtain rfl := Option.some.inj h
          exact ⟨schedule_completed .., schedule_data ..⟩

theorem angkutPutStep_completed_data (g : ℕ → ℕ) (b : List Item) (s s2 : State)
    (h : angkutPutStep g b s = some s2) :
    s2.completed = s.completed ∧ s2.data = s.data := by
  unfold angkutPutStep at h
  split at h
  · exact angkutLoopStep_completed_data g s s2 h
  · obtain rfl := Option.some.inj h
    exact ⟨schedule_completed .., schedule_data ..⟩

theorem dispatch_completed_len (g : ℕ → ℕ) (p : Proc) (s s2 : State)
    (h : dispatch g p s = some s2) (hinv : s.completed = s.data.length) :
    s2.completed = s2.data.length := by
  cases p with
  | gen i =>
      simp only [dispatch] at h
      split at h <;> obtain rfl := Option.some.inj h
      · simpa [schedule_completed, schedule_data] using hinv
      · exact hinv
  | ompStart i =>
      simp only [dispatch] at h
      obtain rfl := Option.some.inj h
      simpa [requestLauk_completed, requestLauk_data] using hinv
  | ompGranted i datang =>
      simp only [dispatch] at h
      obtain rfl := Option.some.inj h
      simpa [schedule_completed, schedule_data] using hinv
  | ompServiceDone i datang mulai t =>
      simp only [dispatch] at h
      obtain rfl := Option.some.inj h
      simpa [schedule_completed, schedule_data, releaseLauk_completed,
        releaseLauk_data] using hinv
  | nop =>
      simp only [dispatch] at h
      obtain rfl := Option.some.inj h
      exact hinv
  | angkutLoop =>
      simp only [dispatch] at h
      obtain ⟨h1, h2⟩ := angkutLoopStep_completed_data g s s2 h
      rw [h1, h2]; exact hinv
  | angkutDrain k b =>
      simp only [dispatch] at h
      split at h
      · obtain rfl := Option.some.inj h
        simpa [requestAngkut_completed, requestAngkut_data] using hinv
      · split at h <;> obtain rfl := Option.some.inj h
        · simpa [requestAngkut_completed, requestAngkut_data] using hinv
        · simpa [schedule_completed, schedule_data] using hinv
  | angkutGranted b =>
      simp only [dispatch] at h
      obtain rfl := Option.some.inj h
      simpa [schedule_completed, schedule_data] using hinv
  | angkutDone b t =>
      simp only [dispatch] at h
      obtain ⟨h1, h2⟩ := angkutPutStep_completed_data g b _ s2 h
      rw [h1, h2]
      simpa [releaseAngkut_completed, releaseAngkut_data] using hinv
  | angkutPut rest =>
      simp only [dispatch] at h
      obtain ⟨h1, h2⟩ := angkutPutStep_completed_data g rest _ s2 h
      rw [h1, h2]; exact hinv
  | nasiLoop =>
      simp only [dispatch] at h
      obtain rfl := Option.some.inj h
      rw [nasiLoopStep_completed, nasiLoopStep_data]; exact hinv
  | nasiGot item =>
      simp only [dispatch] at h
      obtain rfl := Option.some.inj h
      simpa [requestNasi_completed, requestNasi_data] using hinv
  | nasiGranted item =>
      simp only [dispatch] at h
      obtain rfl := Option.some.inj h
      simpa [schedule_completed, schedule_data] using hinv
  | nasiDone item mulai t =>
      simp only [dispatch] at h
      obtain rfl := Option.some.inj h
      rw [nasiLoopStep_completed, nasiLoopStep_data]
      simp only [List.length_append, List.length_cons, List.length_nil]
      rw [releaseNasi_completed, releaseNasi_data] at *
      omega

/-- A `running` step is exactly: pop the head event and dispatch it. -/
theorem step_running_elim (g : ℕ → ℕ) (s s2 : State) (h : step g s = .running s2) :
    ∃ e rest, s.events = e :: rest ∧
      dispatch g e.proc { s with now := e.time, events := rest } = some s2 := by
  unfold step at h
  cases hev : s.events with
  | nil =>
      rw [hev] at h
      exact StepRes.noConfusion (h : StepRes.finished s = StepRes.running s2)
  | cons e rest =>
      rw [hev] at h
      have h' : (match dispatch g e.proc { s with now := e.time, events := rest } with
        | some s' => StepRes.running s'
        | none => StepRes.failed) = StepRes.running s2 := h
      cases hd : dispatch g e.proc { s with now := e.time, events := rest } with
      | none =>
          rw [hd] at h'
          exact StepRes.noConfusion (h' : StepRes.failed = StepRes.running s2)
      | some s3 =>
          rw [hd] at h'
          have h2 : StepRes.running s3 = StepRes.running s2 :=  h'
          cases h2
          exact ⟨e, rest, rfl, hd⟩

/-- A `finished` step happens exactly on an empty event heap and returns the
state unchanged. -/
theorem step_finished_elim (g : ℕ → ℕ) (s s2 : State)
    (h : step g s = .finished s2) : s2 = s ∧ s.events = [] := by
  unfold step at h
  cases hev : s.events with
  | nil =>
      rw [hev] at h
      have h2 : StepRes.finished s = StepRes.finished s2 := h
      cases h2
      exact ⟨rfl, rfl⟩
  | cons e rest =>
      rw [hev] at h
      have h' : (match dispatch g e.proc { s with now := e.time, events := rest } with
        | some s' => StepRes.running s'
        | none => StepRes.failed) = StepRes.finished s2 := h
      cases hd : dispatch g e.proc { s with now := e.time, events := rest } with
      | none =>
          rw [hd] at h'
          exact StepRes.noConfusion (h' : StepRes.failed = StepRes.finished s2)
      | some s3 =>
          rw [hd] at h'
          exact StepRes.noConfusion (h' : StepRes.running s3 = StepRes.finished s2)

theorem step_completed_len (g : ℕ → ℕ) (s s2 : State)
    (h : step g s = .running s2) (hinv : s.completed = s.data.length) :
    s2.completed = s2.data.length := by
  obtain ⟨e, rest, hev, hd⟩ := step_running_elim g s s2 h
  exact dispatch_completed_len g e.proc _ _ hd hinv

theorem stepsTo_completed_len (g : ℕ → ℕ) (n : ℕ) (s s2 : State)
    (h : stepsTo g n s = some s2) (hinv : s.completed = s.data.length) :
    s2.completed = s2.data.length := by
  induction n generalizing s with
  | zero => obtain rfl := Option.some.inj h; exact hinv
  | succ n ih =>
      unfold stepsTo at h
      cases hs : step g s with
      | running s3 =>
          rw [hs] at h
          exact ih s3 h (step_completed_len g s s3 hs hinv)
      | finished s3 => rw [hs] at h; cases h
      | failed => rw [hs] at h; cases h

/-- `runState c = some s₀` pins the start state completely. -/
theorem runState_eq (c : Config) (s0 : State) (h : runState c = some s0) :
    s0 = { cfg := c, now := 0, nextEid := 3,
           events := [⟨0, 0, 0, .gen 0⟩, ⟨0, 0, 1, .angkutLoop⟩, ⟨0, 0, 2, .nasiLoop⟩],
           lauk := ⟨c.PETUGAS_LAUK, 0, []⟩, angkut := ⟨c.PETUGAS_ANGKUT, 0, []⟩,
           nasi := ⟨c.PETUGAS_NASI, 0, []⟩, antrian_lauk := [], antrian_nasi := [],
           data := [], completed := 0, busy_lauk := 0, busy_angkut := 0,
           busy_nasi := 0, rngIdx := 0 } := by
  unfold runState at h
  cases hin : initModel c with
  | none => rw [hin] at h; cases h
  | some s1 =>
      rw [hin, Option.map_some'] at h
      have hs := Option.some.inj h
      subst hs
      unfold initModel at hin
      split at hin
      · cases hin
      · have hs1 := Option.some.inj hin
        subst hs1
        rfl

/-- Claim C10: at every scheduler step of every run, the global `completed`
counter equals the number of records accumulated in `self.data`: the single
append in `proses_nasi` is paired with the single `completed += 1`, and
nothing else mutates either. -/
theorem c10_counter_matches_rows (g : ℕ → ℕ) (c : Config) (s : State)
    (h : Reachable g c s) : s.completed = s.data.length := by
  obtain ⟨s0, n, hrun, hsteps⟩ := h
  refine stepsTo_completed_len g n s0 s hsteps ?_
  rw [runState_eq c s0 hrun]
  rfl

/-- Claim C10, witness: the invariant at the start state of the scenario
configuration. -/
theorem c10_counter_witness :
    scenarioStart.completed = scenarioStart.data.length :=
  c10_counter_matches_rows zStream scenarioConfig scenarioStart
    ⟨scenarioStart, 0, by decide, rfl⟩

/-! ## Conservation of work units (claim C3) -/

/-- The ids of the work units currently owned by a suspended generator:
a unit is owned by its own `proses_ompreng` process until it enters
`antrian_lauk`, by `proses_angkut` while in a batch, by `proses_nasi` while
in hand; `generate` owns the ids it has not spawned yet. -/
def procIds (total : ℕ) : Proc → List ℕ
  | .gen i => List.range' i (total - i)
  | .ompStart i => [i]
  | .ompGranted i _ => [i]
  | .ompServiceDone i _ _ _ => [i]
  | .nop => []
  | .angkutLoop => []
  | .angkutDrain _ b => b.map Item.id
  | .angkutGranted b => b.map Item.id
  | .angkutDone b _ => b.map Item.id
  | .angkutPut r => r.map Item.id
  | .nasiLoop => []
  | .nasiGot it => [it.id]
  | .nasiGranted it => [it.id]
  | .nasiDone it _ _ => [it.id]

/-- Ids owned by a list of suspended generators, as a multiset. -/
def procsIds (total : ℕ) (l : List Proc) : Multiset ℕ :=
  (l.map fun p => ((procIds total p : List ℕ) : Multiset ℕ)).sum

/-- Ids owned by the pending events of the heap. -/
def eventsIds (total : ℕ) (es : List Event) : Multiset ℕ :=
  procsIds total (es.map Event.proc)

/-- Every work-unit id in the system, wherever it currently lives:
in a pending event, in a resource wait list, in one of the two stores, or
already in `self.data`. -/
def sysIds (s : State) : Multiset ℕ :=
  eventsIds s.cfg.TOTAL_OMPRENG s.events
    + procsIds s.cfg.TOTAL_OMPRENG s.lauk.queue
    + procsIds s.cfg.TOTAL_OMPRENG s.angkut.queue
    + procsIds s.cfg.TOTAL_OMPRENG s.nasi.queue
    + ((s.antrian_lauk.map Item.id : List ℕ) : Multiset ℕ)
    + ((s.antrian_nasi.map Item.id : List ℕ) : Multiset ℕ)
    + ((s.data.map Row.id : List ℕ) : Multiset ℕ)

theorem procsIds_nil (total : ℕ) : procsIds total [] = 0 := rfl

theorem procsIds_cons (total : ℕ) (p : Proc) (l : List Proc) :
    procsIds total (p :: l) = ↑(procIds total p) + procsIds total l := by
  simp [procsIds]

theorem procsIds_append (total : ℕ) (l₁ l₂ : List Proc) :
    procsIds total (l₁ ++ l₂) = procsIds total l₁ + procsIds total l₂ := by
  simp [procsIds]

theorem insertEvent_perm (e : Event) (q : List Event) :
    List.Perm (insertEvent e q) (e :: q) := by
  induction q with
  | nil => exact List.Perm.refl _
  | cons x xs ih =>
      unfold insertEvent
      split
      · exact List.Perm.refl _
      · exact ((ih.cons x).trans (List.Perm.swap e x xs))

theorem eventsIds_perm (total : ℕ) (es es' : List Event)
    (h : List.Perm es es') : eventsIds total es = eventsIds total es' := by
  unfold eventsIds procsIds
  exact List.Perm.sum_eq ((h.map Event.proc).map _)

theorem eventsIds_cons (total : ℕ) (e : Event) (es : List Event) :
    eventsIds total (e :: es) = ↑(procIds total e.proc) + eventsIds total es := by
  simp [eventsIds, procsIds]

theorem eventsIds_insertEvent (total : ℕ) (e : Event) (es : List Event) :
    eventsIds total (insertEvent e es)
      = ↑(procIds total e.proc) + eventsIds total es := by
  rw [eventsIds_perm total _ _ (insertEvent_perm e es), eventsIds_cons]

theorem sysIds_schedule (s : State) (t p : ℕ) (c : Proc) :
    sysIds (schedule s t p c) = ↑(procIds s.cfg.TOTAL_OMPRENG c) + sysIds s := by
  unfold sysIds
  rw [schedule_cfg, schedule_events, schedule_lauk, schedule_angkut, schedule_nasi,
    schedule_antrian_lauk, schedule_antrian_nasi, schedule_data,
    eventsIds_insertEvent]
  abel

theorem sysIds_requestLauk (s : State) (c : Proc) :
    sysIds (requestLauk s c) = ↑(procIds s.cfg.TOTAL_OMPRENG c) + sysIds s := by
  unfold requestLauk
  split
  · rw [sysIds_schedule]
    rfl
  · unfold sysIds
    simp only [procsIds_append, procsIds_cons, procsIds_nil]
    abel

theorem sysIds_requestAngkut (s : State) (c : Proc) :
    sysIds (requestAngkut s c) = ↑(procIds s.cfg.TOTAL_OMPRENG c) + sysIds s := by
  unfold requestAngkut
  split
  · rw [sysIds_schedule]
    rfl
  · unfold sysIds
    simp only [procsIds_append, procsIds_cons, procsIds_nil]
    abel

theorem sysIds_requestNasi (s : State) (c : Proc) :
    sysIds (requestNasi s c) = ↑(procIds s.cfg.TOTAL_OMPRENG c) + sysIds s := by
  unfold requestNasi
  split
  · rw [sysIds_schedule]
    rfl
  · unfold sysIds
    simp only [procsIds_append, procsIds_cons, procsIds_nil]
    abel

theorem sysIds_releaseLauk (s : State) : sysIds (releaseLauk s) = sysIds s := by
  unfold releaseLauk
  split
  · rfl
  · rename_i c rest hq
    rw [sysIds_schedule]
    unfold sysIds
    rw [hq, procsIds_cons]
    abel

theorem sysIds_releaseAngkut (s : State) : sysIds (releaseAngkut s) = sysIds s := by
  unfold releaseAngkut
  split
  · rfl
  · rename_i c rest hq
    rw [sysIds_schedule]
    unfold sysIds
    rw [hq, procsIds_cons]
    abel

theorem sysIds_releaseNasi (s : State) : sysIds (releaseNasi s) = sysIds s := by
  unfold releaseNasi
  split
  · rfl
  · rename_i c rest hq
    rw [sysIds_schedule]
    unfold sysIds
    rw [hq, procsIds_cons]
    abel

theorem sysIds_nasiLoopStep (s : State) : sysIds (nasiLoopStep s) = sysIds s := by
  unfold nasiLoopStep
  split
  · rfl
  · split
    · rw [sysIds_schedule]
      simp [procIds]
    · rename_i x t hq
      rw [sysIds_schedule]
      unfold sysIds
      rw [hq]
      simp only [procIds, List.map_cons, Multiset.coe_singleton, Multiset.coe_nil,
        ← Multiset.cons_coe, ← Multiset.singleton_add]
      abel

theorem sysIds_angkutLoopStep (g : ℕ → ℕ) (s s2 : State)
    (h : angkutLoopStep g s = some s2) : sysIds s2 = sysIds s := by
  unfold angkutLoopStep at h
  split at h
  · obtain rfl := Option.some.inj h
    rfl
  · split at h
    · obtain rfl := Option.some.inj h
      rw [sysIds_schedule]
      simp [procIds]
    · rename_i x t hq
      split at h
      · cases h
      · split at h
        · simp only [Option.some.injEq] at h
          subst h
          rw [sysIds_requestAngkut]
          simp only [procIds, List.map_nil, Multiset.coe_nil, zero_add]
          rfl
        · simp only [Option.some.injEq] at h
          subst h
          rw [sysIds_schedule]
          unfold sysIds
          rw [hq]
          simp only [procIds, List.map_cons, List.map_nil, Multiset.coe_singleton,
            Multiset.coe_nil, ← Multiset.cons_coe, ← Multiset.singleton_add]
          abel

theorem sysIds_angkutPutStep (g : ℕ → ℕ) (b : List Item) (s s2 : State)
    (h : angkutPutStep g b s = some s2) :
    sysIds s2 = ↑(b.map Item.id) + sysIds s := by
  unfold angkutPutStep at h
  split at h
  · rw [sysIds_angkutLoopStep g s s2 h]
    simp
  · rename_i x rest
    simp only [Option.some.injEq] at h
    subst h
    rw [sysIds_schedule]
    unfold sysIds
    simp only [procIds, List.map_cons, List.map_append, List.map_nil,
      Multiset.coe_singleton, Multiset.coe_nil, ← Multiset.coe_add,
      ← Multiset.cons_coe, ← Multiset.singleton_add]
    abel

/-- Resuming a suspended generator conserves work-unit ids: the new system
multiset is exactly the resumed generator's ids plus what was there. -/
theorem dispatch_sysIds (g : ℕ → ℕ) (p : Proc) (s s2 : State)
    (h : dispatch g p s = some s2) :
    sysIds s2 = ↑(procIds s.cfg.TOTAL_OMPRENG p) + sysIds s := by
  cases p with
  | gen i =>
      simp only [dispatch] at h
      split at h
      · rename_i hlt
        obtain rfl := Option.some.inj h
        rw [sysIds_schedule, sysIds_schedule]
        simp only [procIds, schedule_cfg]
        have hsub : s.cfg.TOTAL_OMPRENG - i = (s.cfg.TOTAL_OMPRENG - (i + 1)) + 1 := by omega
        rw [hsub, List.range'_succ i _ 1]
        simp only [Multiset.coe_singleton, Multiset.coe_nil, ← Multiset.cons_coe,
          ← Multiset.singleton_add, zero_add]
        abel
      · rename_i hge
        obtain rfl := Option.some.inj h
        have hz : s.cfg.TOTAL_OMPRENG - i = 0 := by omega
        simp [procIds, hz]
  | ompStart i =>
      simp only [dispatch] at h
      obtain rfl := Option.some.inj h
      rw [sysIds_requestLauk]
      rfl
  | ompGranted i datang =>
      simp only [dispatch] at h
      obtain rfl := Option.some.inj h
      rw [sysIds_schedule]
      rfl
  | ompServiceDone i datang mulai t =>
      simp only [dispatch, Option.some.injEq] at h
      subst h
      rw [sysIds_schedule]
      rw [← sysIds_releaseLauk s]
      unfold sysIds
      simp only [procIds, List.map_append, List.map_cons, List.map_nil,
        Multiset.coe_singleton, Multiset.coe_nil, ← Multiset.coe_add,
        ← Multiset.cons_coe, ← Multiset.singleton_add]
      abel
  | nop =>
      simp only [dispatch] at h
      obtain rfl := Option.some.inj h
      simp [procIds]
  | angkutLoop =>
      simp only [dispatch] at h
      rw [sysIds_angkutLoopStep g s s2 h]
      simp [procIds]
  | angkutDrain k b =>
      simp only [dispatch] at h
      split at h
      · obtain rfl := Option.some.inj h
        rw [sysIds_requestAngkut]
        rfl
      · split at h
        · obtain rfl := Option.some.inj h
          rw [sysIds_requestAngkut]
          rfl
        · rename_i x t hq
          obtain rfl := Option.some.inj h
          rw [sysIds_schedule]
          unfold sysIds
          rw [hq]
          simp only [procIds, List.map_append, List.map_cons, List.map_nil,
            Multiset.coe_singleton, Multiset.coe_nil, ← Multiset.coe_add,
            ← Multiset.cons_coe, ← Multiset.singleton_add]
          abel
  | angkutGranted b =>
      simp only [dispatch] at h
      obtain rfl := Option.some.inj h
      rw [sysIds_schedule]
      rfl
  | angkutDone b t =>
      simp only [dispatch] at h
      rw [sysIds_angkutPutStep g b _ s2 h]
      exact congrArg (fun m => ((b.map Item.id : List ℕ) : Multiset ℕ) + m)
        (sysIds_releaseAngkut s)
  | angkutPut rest =>
      simp only [dispatch] at h
      rw [sysIds_angkutPutStep g rest _ s2 h]
      rfl
  | nasiLoop =>
      simp only [dispatch] at h
      obtain rfl := Option.some.inj h
      rw [sysIds_nasiLoopStep]
      simp [procIds]
  | nasiGot item =>
      simp only [dispatch] at h
      obtain rfl := Option.some.inj h
      rw [sysIds_requestNasi]
      rfl
  | nasiGranted item =>
      simp only [dispatch] at h
      obtain rfl := Option.some.inj h
      rw [sysIds_schedule]
      rfl
  | nasiDone item mulai t =>
      simp only [dispatch, Option.some.injEq] at h
      subst h
      rw [sysIds_nasiLoopStep]
      rw [← sysIds_releaseNasi s]
      unfold sysIds
      simp only [procIds, List.map_append, List.map_cons, List.map_nil,
        Multiset.coe_singleton, Multiset.coe_nil, ← Multiset.coe_add,
        ← Multiset.cons_coe, ← Multiset.singleton_add]
      abel

/-- One scheduler step conserves the multiset of work-unit ids. -/
theorem step_sysIds (g : ℕ → ℕ) (s s2 : State) (h : step g s = .running s2) :
    sysIds s2 = sysIds s := by
  obtain ⟨e, rest, hev, hd⟩ := step_running_elim g s s2 h
  rw [dispatch_sysIds g e.proc _ s2 hd]
  unfold sysIds
  dsimp only
  rw [hev, eventsIds_cons]
  abel

theorem stepsTo_sysIds (g : ℕ → ℕ) (n : ℕ) (s s2 : State)
    (h : stepsTo g n s = some s2) : sysIds s2 = sysIds s := by
  induction n generalizing s with
  | zero => obtain rfl := Option.some.inj h; rfl
  | succ n ih =>
      unfold stepsTo at h
      cases hs : step g s with
      | running s3 =>
          rw [hs] at h
          rw [ih s3 h, step_sysIds g s s3 hs]
      | finished s3 => rw [hs] at h; cases h
      | failed => rw [hs] at h; cases h

theorem runState_sysIds (c : Config) (s0 : State) (h : runState c = some s0) :
    sysIds s0 = Multiset.range c.TOTAL_OMPRENG := by
  rw [runState_eq c s0 h]
  unfold sysIds eventsIds procsIds
  simp [procIds, ← Multiset.coe_range, List.range_eq_range']

/-! ## Configuration and capacities are constant during a run -/

theorem angkutLoopStep_cfg_pools (g : ℕ → ℕ) (s s2 : State)
    (h : angkutLoopStep g s = some s2) :
    s2.cfg = s.cfg ∧ s2.lauk.capacity = s.lauk.capacity ∧
    s2.angkut.capacity = s.angkut.capacity ∧ s2.nasi.capacity = s.nasi.capacity := by
  unfold angkutLoopStep at h
  split at h
  · obtain rfl := Option.some.inj h
    exact ⟨rfl, rfl, rfl, rfl⟩
  · split at h
    · obtain rfl := Option.some.inj h
      exact ⟨rfl, rfl, rfl, rfl⟩
    · split at h
      · cases h
      · split at h
        · simp only [Option.some.injEq] at h
          subst h
          refine ⟨requestAngkut_cfg .., ?_, ?_, ?_⟩
          · rw [requestAngkut_lauk]
          · unfold requestAngkut
            split <;> rfl
          · rw [requestAngkut_nasi]
        · simp only [Option.some.injEq] at h
          subst h
          exact ⟨rfl, rfl, rfl, rfl⟩

theorem angkutPutStep_cfg_pools (g : ℕ → ℕ) (b : List Item) (s s2 : State)
    (h : angkutPutStep g b s = some s2) :
    s2.cfg = s.cfg ∧ s2.lauk.capacity = s.lauk.capacity ∧
    s2.angkut.capacity = s.angkut.capacity ∧ s2.nasi.capacity = s.nasi.capacity := by
  unfold angkutPutStep at h
  split at h
  · exact angkutLoopStep_cfg_pools g s s2 h
  · obtain rfl := Option.some.inj h
    exact ⟨rfl, rfl, rfl, rfl⟩

theorem nasiLoopStep_cfg_pools (s : State) :
    (nasiLoopStep s).cfg = s.cfg ∧ (nasiLoopStep s).lauk.capacity = s.lauk.capacity ∧
    (nasiLoopStep s).angkut.capacity = s.angkut.capacity ∧
    (nasiLoopStep s).nasi.capacity = s.nasi.capacity := by
  unfold nasiLoopStep
  split
  · exact ⟨rfl, rfl, rfl, rfl⟩
  · split <;> exact ⟨rfl, rfl, rfl, rfl⟩

theorem dispatch_cfg_pools (g : ℕ → ℕ) (p : Proc) (s s2 : State)
    (h : dispatch g p s = some s2) :
    s2.cfg = s.cfg ∧ s2.lauk.capacity = s.lauk.capacity ∧
    s2.angkut.capacity = s.angkut.capacity ∧ s2.nasi.capacity = s.nasi.capacity := by
  cases p with
  | gen i =>
      simp only [dispatch] at h
      split at h <;> (obtain rfl := Option.some.inj h; exact ⟨rfl, rfl, rfl, rfl⟩)
  | ompStart i =>
      simp only [dispatch] at h
      obtain rfl := Option.some.inj h
      refine ⟨requestLauk_cfg .., ?_, ?_, ?_⟩
      · unfold requestLauk; split <;> rfl
      · rw [requestLauk_angkut]
      · rw [requestLauk_nasi]
  | ompGranted i datang =>
      simp only [dispatch] at h
      obtain rfl := Option.some.inj h
      exact ⟨rfl, rfl, rfl, rfl⟩
  | ompServiceDone i datang mulai t =>
      simp only [dispatch, Option.some.injEq] at h
      subst h
      refine ⟨releaseLauk_cfg .., ?_, ?_, ?_⟩
      · unfold releaseLauk; split <;> rfl
      · rw [schedule_angkut]
        show (releaseLauk s).angkut.capacity = _
        rw [releaseLauk_angkut]
      · rw [schedule_nasi]
        show (releaseLauk s).nasi.capacity = _
        rw [releaseLauk_nasi]
  | nop =>
      simp only [dispatch] at h
      obtain rfl := Option.some.inj h
      exact ⟨rfl, rfl, rfl, rfl⟩
  | angkutLoop =>
      simp only [dispatch] at h
      exact angkutLoopStep_cfg_pools g s s2 h
  | angkutDrain k b =>
      simp only [dispatch] at h
      split at h
      · obtain rfl := Option.some.inj h
        refine ⟨requestAngkut_cfg .., by rw [requestAngkut_lauk], ?_, by rw [requestAngkut_nasi]⟩
        unfold requestAngkut; split <;> rfl
      · split at h
        · obtain rfl := Option.some.inj h
          refine ⟨requestAngkut_cfg .., by rw [requestAngkut_lauk], ?_, by rw [requestAngkut_nasi]⟩
          unfold requestAngkut; split <;> rfl
        · obtain rfl := Option.some.inj h
          exact ⟨rfl, rfl, rfl, rfl⟩
  | angkutGranted b =>
      simp only [dispatch] at h
      obtain rfl := Option.some.inj h
      exact ⟨rfl, rfl, rfl, rfl⟩
  | angkutDone b t =>
      simp only [dispatch] at h
      obtain ⟨h1, h2, h3, h4⟩ := angkutPutStep_cfg_pools g b _ s2 h
      refine ⟨h1.trans (releaseAngkut_cfg s), ?_, ?_, ?_⟩
      · refine h2.trans ?_
        show (releaseAngkut s).lauk.capacity = s.lauk.capacity
        rw [releaseAngkut_lauk]
      · refine h3.trans ?_
        show (releaseAngkut s).angkut.capacity = s.angkut.capacity
        unfold releaseAngkut; split <;> rfl
      · refine h4.trans ?_
        show (releaseAngkut s).nasi.capacity = s.nasi.capacity
        rw [releaseAngkut_nasi]
  | angkutPut rest =>
      simp only [dispatch] at h
      exact angkutPutStep_cfg_pools g rest s s2 h
  | nasiLoop =>
      simp only [dispatch] at h
      obtain rfl := Option.some.inj h
      exact nasiLoopStep_cfg_pools s
  | nasiGot item =>
      simp only [dispatch] at h
      obtain rfl := Option.some.inj h
      refine ⟨requestNasi_cfg .., by rw [requestNasi_lauk], by rw [requestNasi_angkut], ?_⟩
      unfold requestNasi; split <;> rfl
  | nasiGranted item =>
      simp only [dispatch] at h
      obtain rfl := Option.some.inj h
      exact ⟨rfl, rfl, rfl, rfl⟩
  | nasiDone item mulai t =>
      simp only [dispatch, Option.some.injEq] at h
      subst h
      obtain ⟨h1, h2, h3, h4⟩ := nasiLoopStep_cfg_pools _
      refine ⟨h1.trans (releaseNasi_cfg s), ?_, ?_, ?_⟩
      · refine h2.trans ?_
        show (releaseNasi s).lauk.capacity = s.lauk.capacity
        rw [releaseNasi_lauk]
      · refine h3.trans ?_
        show (releaseNasi s).angkut.capacity = s.angkut.capacity
        rw [releaseNasi_angkut]
      · refine h4.trans ?_
        show (releaseNasi s).nasi.capacity = s.nasi.capacity
        unfold releaseNasi; split <;> rfl

theorem step_cfg_pools (g : ℕ → ℕ) (s s2 : State) (h : step g s = .running s2) :
    s2.cfg = s.cfg ∧ s2.lauk.capacity = s.lauk.capacity ∧
    s2.angkut.capacity = s.angkut.capacity ∧ s2.nasi.capacity = s.nasi.capacity := by
  obtain ⟨e, rest, hev, hd⟩ := step_running_elim g s s2 h
  obtain ⟨h1, h2, h3, h4⟩ := dispatch_cfg_pools g e.proc _ s2 hd
  exact ⟨h1, h2, h3, h4⟩

theorem stepsTo_cfg_pools (g : ℕ → ℕ) (n : ℕ) (s s2 : State)
    (h : stepsTo g n s = some s2) :
    s2.cfg = s.cfg ∧ s2.lauk.capacity = s.lauk.capacity ∧
    s2.angkut.capacity = s.angkut.capacity ∧ s2.nasi.capacity = s.nasi.capacity := by
  induction n generalizing s with
  | zero => obtain rfl := Option.some.inj h; exact ⟨rfl, rfl, rfl, rfl⟩
  | succ n ih =>
      unfold stepsTo at h
      cases hs : step g s with
      | running s3 =>
          rw [hs] at h
          obtain ⟨a1, a2, a3, a4⟩ := ih s3 h
          obtain ⟨b1, b2, b3, b4⟩ := step_cfg_pools g s s3 hs
          exact ⟨a1.trans b1, a2.trans b2, a3.trans b3, a4.trans b4⟩
      | finished s3 => rw [hs] at h; cases h
      | failed => rw [hs] at h; cases h

/-! ## Liveness of the single transport worker loop -/

/-- Pending transport-loop resumptions on the heap. -/
def countA (es : List Event) : ℕ :=
  es.countP fun e => isTransportLoopProc e.proc

/-- Pending transport-loop resumptions that currently hold the angkut server. -/
def countHold (es : List Event) : ℕ :=
  es.countP fun e => holdsAngkutProc e.proc

theorem countA_insertEvent (e : Event) (q : List Event) :
    countA (insertEvent e q) = countA q + (if isTransportLoopProc e.proc then 1 else 0) := by
  unfold countA
  rw [(insertEvent_perm e q).countP_eq, List.countP_cons]

theorem countHold_insertEvent (e : Event) (q : List Event) :
    countHold (insertEvent e q) = countHold q + (if holdsAngkutProc e.proc then 1 else 0) := by
  unfold countHold
  rw [(insertEvent_perm e q).countP_eq, List.countP_cons]

theorem countA_cons (e : Event) (q : List Event) :
    countA (e :: q) = countA q + (if isTransportLoopProc e.proc then 1 else 0) :=
  List.countP_cons _ e q

theorem countHold_cons (e : Event) (q : List Event) :
    countHold (e :: q) = countHold q + (if holdsAngkutProc e.proc then 1 else 0) :=
  List.countP_cons _ e q

theorem holds_imp_isA (p : Proc) (h : holdsAngkutProc p = true) :
    isTransportLoopProc p = true := by
  cases p <;> simp_all [holdsAngkutProc, isTransportLoopProc]

theorem countHold_le_countA (es : List Event) : countHold es ≤ countA es :=
  List.countP_mono_left fun e _ => holds_imp_isA e.proc

/-- While the run is not finished, exactly one `proses_angkut` resumption is
pending (never parked in a resource wait list), the angkut wait list is
empty, the angkut user count mirrors the loop's service phase, and once no
resumption is pending the completed counter has reached the total. -/
structure AInv (s : State) : Prop where
  cap : 1 ≤ s.angkut.capacity
  aq : s.angkut.queue = []
  lq : ∀ p ∈ s.lauk.queue, isTransportLoopProc p = false
  nq : ∀ p ∈ s.nasi.queue, isTransportLoopProc p = false
  users : s.angkut.users = countHold s.events
  one : countA s.events ≤ 1
  done : countA s.events = 0 → s.cfg.TOTAL_OMPRENG ≤ s.completed

theorem AInv_schedule (x : State) (t p : ℕ) (c : Proc)
    (hc : isTransportLoopProc c = false) (hx : AInv x) : AInv (schedule x t p c) := by
  have hh : holdsAngkutProc c = false := by
    cases hhold : holdsAngkutProc c
    · rfl
    · rw [holds_imp_isA c hhold] at hc; cases hc
  refine ⟨hx.cap, hx.aq, hx.lq, hx.nq, ?_, ?_, ?_⟩
  · rw [schedule_angkut, schedule_events, countHold_insertEvent, hh]
    simpa using hx.users
  · rw [schedule_events, countA_insertEvent, hc]
    simpa using hx.one
  · rw [schedule_events, schedule_cfg, schedule_completed, countA_insertEvent, hc]
    simpa using hx.done

theorem AInv_requestLauk (x : State) (c : Proc)
    (hc : isTransportLoopProc c = false) (hx : AInv x) : AInv (requestLauk x c) := by
  unfold requestLauk
  split
  · exact AInv_schedule _ _ _ _ hc
      ⟨hx.cap, hx.aq, hx.lq, hx.nq, hx.users, hx.one, hx.done⟩
  · refine ⟨hx.cap, hx.aq, ?_, hx.nq, hx.users, hx.one, hx.done⟩
    intro p hp
    rcases List.mem_append.1 hp with hp | hp
    · exact hx.lq p hp
    · rw [List.mem_singleton.1 hp]; exact hc

theorem AInv_requestNasi (x : State) (c : Proc)
    (hc : isTransportLoopProc c = false) (hx : AInv x) : AInv (requestNasi x c) := by
  unfold requestNasi
  split
  · exact AInv_schedule _ _ _ _ hc
      ⟨hx.cap, hx.aq, hx.lq, hx.nq, hx.users, hx.one, hx.done⟩
  · refine ⟨hx.cap, hx.aq, hx.lq, ?_, hx.users, hx.one, hx.done⟩
    intro p hp
    rcases List.mem_append.1 hp with hp | hp
    · exact hx.nq p hp
    · rw [List.mem_singleton.1 hp]; exact hc

theorem AInv_releaseLauk (x : State) (hx : AInv x) : AInv (releaseLauk x) := by
  unfold releaseLauk
  split
  · exact ⟨hx.cap, hx.aq, by simpa using hx.lq, hx.nq, hx.users, hx.one, hx.done⟩
  · rename_i c rest hq
    have hc : isTransportLoopProc c = false := hx.lq c (by rw [hq]; exact List.mem_cons_self c rest)
    have hx' : AInv { x with lauk := { x.lauk with queue := rest } } :=
      ⟨hx.cap, hx.aq, fun p hp => hx.lq p (by rw [hq]; exact List.mem_cons_of_mem c hp),
        hx.nq, hx.users, hx.one, hx.done⟩
    exact AInv_schedule _ _ _ _ hc hx'

theorem AInv_releaseNasi (x : State) (hx : AInv x) : AInv (releaseNasi x) := by
  unfold releaseNasi
  split
  · exact ⟨hx.cap, hx.aq, hx.lq, by simpa using hx.nq, hx.users, hx.one, hx.done⟩
  · rename_i c rest hq
    have hc : isTransportLoopProc c = false := hx.nq c (by rw [hq]; exact List.mem_cons_self c rest)
    have hx' : AInv { x with nasi := { x.nasi with queue := rest } } :=
      ⟨hx.cap, hx.aq, hx.lq, fun p hp => hx.nq p (by rw [hq]; exact List.mem_cons_of_mem c hp),
        hx.users, hx.one, hx.done⟩
    exact AInv_schedule _ _ _ _ hc hx'

theorem AInv_nasiLoopStep (x : State) (hx : AInv x) : AInv (nasiLoopStep x) := by
  unfold nasiLoopStep
  split
  · exact hx
  · split
    · exact AInv_schedule _ _ _ _ (by rfl) hx
    · exact AInv_schedule _ _ _ _ (by rfl)
        ⟨hx.cap, hx.aq, hx.lq, hx.nq, hx.users, hx.one, hx.done⟩

theorem AInv_schedule_A (x : State) (t p : ℕ) (c : Proc)
    (hcA : isTransportLoopProc c = true) (hcH : holdsAngkutProc c = false)
    (hcap : 1 ≤ x.angkut.capacity) (haq : x.angkut.queue = [])
    (hlq : ∀ q ∈ x.lauk.queue, isTransportLoopProc q = false)
    (hnq : ∀ q ∈ x.nasi.queue, isTransportLoopProc q = false)
    (husers : x.angkut.users = countHold x.events)
    (hA : countA x.events = 0) : AInv (schedule x t p c) := by
  refine ⟨hcap, haq, hlq, hnq, ?_, ?_, ?_⟩
  · rw [schedule_angkut, schedule_events, countHold_insertEvent, hcH]
    simpa using husers
  · rw [schedule_events, countA_insertEvent, hcA, hA]
    simp
  · rw [schedule_events, countA_insertEvent, hcA, hA]
    intro hc
    simp at hc

theorem AInv_schedule_hold (x : State) (t p : ℕ) (c : Proc)
    (hcA : isTransportLoopProc c = true) (hcH : holdsAngkutProc c = true)
    (hcap : 1 ≤ x.angkut.capacity) (haq : x.angkut.queue = [])
    (hlq : ∀ q ∈ x.lauk.queue, isTransportLoopProc q = false)
    (hnq : ∀ q ∈ x.nasi.queue, isTransportLoopProc q = false)
    (husers : x.angkut.users = countHold x.events + 1)
    (hA : countA x.events = 0) : AInv (schedule x t p c) := by
  refine ⟨hcap, haq, hlq, hnq, ?_, ?_, ?_⟩
  · rw [schedule_angkut, schedule_events, countHold_insertEvent, hcH]
    simpa using husers
  · rw [schedule_events, countA_insertEvent, hcA, hA]
    simp
  · rw [schedule_events, countA_insertEvent, hcA, hA]
    intro hc
    simp at hc

theorem AInv_requestAngkut_free (x : State) (c : Proc)
    (hcA : isTransportLoopProc c = true) (hcH : holdsAngkutProc c = true)
    (hcap : 1 ≤ x.angkut.capacity) (haq : x.angkut.queue = [])
    (hlq : ∀ q ∈ x.lauk.queue, isTransportLoopProc q = false)
    (hnq : ∀ q ∈ x.nasi.queue, isTransportLoopProc q = false)
    (husers : x.angkut.users = countHold x.events)
    (hzero : countHold x.events = 0)
    (hA : countA x.events = 0) : AInv (requestAngkut x c) := by
  unfold requestAngkut
  rw [if_pos (by omega : x.angkut.users < x.angkut.capacity)]
  refine ⟨by simpa using hcap, by simpa using haq, hlq, hnq, ?_, ?_, ?_⟩
  · rw [schedule_events, countHold_insertEvent, hcH]
    show x.angkut.users + 1 = countHold x.events + 1
    omega
  · rw [schedule_events, countA_insertEvent, hcA, hA]
    simp
  · rw [schedule_events, countA_insertEvent, hcA, hA]
    intro hc
    simp at hc

theorem AInv_loopStepA (g : ℕ → ℕ) (x s2 : State)
    (h : angkutLoopStep g x = some s2)
    (hcap : 1 ≤ x.angkut.capacity) (haq : x.angkut.queue = [])
    (hlq : ∀ q ∈ x.lauk.queue, isTransportLoopProc q = false)
    (hnq : ∀ q ∈ x.nasi.queue, isTransportLoopProc q = false)
    (husers : x.angkut.users = countHold x.events)
    (hA : countA x.events = 0) : AInv s2 := by
  have hzero : countHold x.events = 0 :=
    Nat.le_zero.mp (hA ▸ countHold_le_countA x.events)
  unfold angkutLoopStep at h
  split at h
  · rename_i hdone
    obtain rfl := Option.some.inj h
    exact ⟨hcap, haq, hlq, hnq, husers, by omega, fun _ => hdone⟩
  · split at h
    · obtain rfl := Option.some.inj h
      exact AInv_schedule_A _ _ _ _ rfl rfl hcap haq hlq hnq husers hA
    · rename_i xi t hq
      split at h
      · cases h
      · split at h
        · simp only [Option.some.injEq] at h
          subst h
          exact AInv_requestAngkut_free _ _ rfl rfl hcap haq hlq hnq husers hzero hA
        · simp only [Option.some.injEq] at h
          subst h
          exact AInv_schedule_A _ _ _ _ rfl rfl hcap haq hlq hnq husers hA

theorem AInv_putStepA (g : ℕ → ℕ) (b : List Item) (x s2 : State)
    (h : angkutPutStep g b x = some s2)
    (hcap : 1 ≤ x.angkut.capacity) (haq : x.angkut.queue = [])
    (hlq : ∀ q ∈ x.lauk.queue, isTransportLoopProc q = false)
    (hnq : ∀ q ∈ x.nasi.queue, isTransportLoopProc q = false)
    (husers : x.angkut.users = countHold x.events)
    (hA : countA x.events = 0) : AInv s2 := by
  unfold angkutPutStep at h
  split at h
  · exact AInv_loopStepA g x s2 h hcap haq hlq hnq husers hA
  · obtain rfl := Option.some.inj h
    exact AInv_schedule_A _ _ _ _ rfl rfl hcap haq hlq hnq husers hA

theorem releaseAngkut_of_empty (x : State) (hq : x.angkut.queue = []) :
    releaseAngkut x = { x with angkut := { x.angkut with users := x.angkut.users - 1 } } := by
  unfold releaseAngkut
  split
  · rfl
  · rename_i c rest hq2
    rw [hq] at hq2
    cases hq2

theorem step_AInv (g : ℕ → ℕ) (s s2 : State) (h : step g s = .running s2)
    (hi : AInv s) : AInv s2 := by
  obtain ⟨e, rest, hev, hd⟩ := step_running_elim g s s2 h
  have hmA := hi.one
  have hA0 := hi.done
  have hmH := hi.users
  rw [hev, countA_cons] at hmA hA0
  rw [hev, countHold_cons] at hmH
  cases hp : e.proc with
  | gen i =>
      rw [hp] at hd hmA hmH hA0
      simp [isTransportLoopProc, holdsAngkutProc] at hmA hmH hA0
      have hm : AInv { s with now := e.time, events := rest } :=
        ⟨hi.cap, hi.aq, hi.lq, hi.nq, hmH, hmA, hA0⟩
      simp only [dispatch] at hd
      split at hd
      · obtain rfl := Option.some.inj hd
        exact AInv_schedule _ _ _ _ rfl (AInv_schedule _ _ _ _ rfl hm)
      · obtain rfl := Option.some.inj hd
        exact hm
  | ompStart i =>
      rw [hp] at hd hmA hmH hA0
      simp [isTransportLoopProc, holdsAngkutProc] at hmA hmH hA0
      have hm : AInv { s with now := e.time, events := rest } :=
        ⟨hi.cap, hi.aq, hi.lq, hi.nq, hmH, hmA, hA0⟩
      simp only [dispatch] at hd
      obtain rfl := Option.some.inj hd
      exact AInv_requestLauk _ _ rfl hm
  | ompGranted i datang =>
      rw [hp] at hd hmA hmH hA0
      simp [isTransportLoopProc, holdsAngkutProc] at hmA hmH hA0
      have hm : AInv { s with now := e.time, events := rest } :=
        ⟨hi.cap, hi.aq, hi.lq, hi.nq, hmH, hmA, hA0⟩
      simp only [dispatch] at hd
      obtain rfl := Option.some.inj hd
      exact AInv_schedule _ _ _ _ rfl
        ⟨hm.cap, hm.aq, hm.lq, hm.nq, hm.users, hm.one, hm.done⟩
  | ompServiceDone i datang mulai t =>
      rw [hp] at hd hmA hmH hA0
      simp [isTransportLoopProc, holdsAngkutProc] at hmA hmH hA0
      have hm : AInv { s with now := e.time, events := rest } :=
        ⟨hi.cap, hi.aq, hi.lq, hi.nq, hmH, hmA, hA0⟩
      simp only [dispatch, Option.some.injEq] at hd
      subst hd
      have hrel := AInv_releaseLauk _ hm
      exact AInv_schedule _ _ _ _ rfl
        ⟨hrel.cap, hrel.aq, hrel.lq, hrel.nq, hrel.users, hrel.one, hrel.done⟩
  | nop =>
      rw [hp] at hd hmA hmH hA0
      simp [isTransportLoopProc, holdsAngkutProc] at hmA hmH hA0
      have hm : AInv { s with now := e.time, events := rest } :=
        ⟨hi.cap, hi.aq, hi.lq, hi.nq, hmH, hmA, hA0⟩
      simp only [dispatch] at hd
      obtain rfl := Option.some.inj hd
      exact hm
  | angkutLoop =>
      rw [hp] at hd hmA hmH
      simp [isTransportLoopProc, holdsAngkutProc] at hmA hmH
      have hA : countA rest = 0 := by omega
      simp only [dispatch] at hd
      exact AInv_loopStepA g _ s2 hd hi.cap hi.aq hi.lq hi.nq hmH hA
  | angkutDrain k b =>
      rw [hp] at hd hmA hmH
      simp [isTransportLoopProc, holdsAngkutProc] at hmA hmH
      have hA : countA rest = 0 := by omega
      have hzero : countHold rest = 0 :=
        Nat.le_zero.mp (hA ▸ countHold_le_countA rest)
      simp only [dispatch] at hd
      split at hd
      · obtain rfl := Option.some.inj hd
        exact AInv_requestAngkut_free _ _ rfl rfl hi.cap hi.aq hi.lq hi.nq hmH hzero hA
      · split at hd
        · obtain rfl := Option.some.inj hd
          exact AInv_requestAngkut_free _ _ rfl rfl hi.cap hi.aq hi.lq hi.nq hmH hzero hA
        · obtain rfl := Option.some.inj hd
          exact AInv_schedule_A _ _ _ _ rfl rfl hi.cap hi.aq hi.lq hi.nq hmH hA
  | angkutGranted b =>
      rw [hp] at hd hmA hmH
      simp [isTransportLoopProc, holdsAngkutProc] at hmA hmH
      have hA : countA rest = 0 := by omega
      simp only [dispatch] at hd
      obtain rfl := Option.some.inj hd
      exact AInv_schedule_hold _ _ _ _ rfl rfl hi.cap hi.aq hi.lq hi.nq hmH hA
  | angkutDone b t =>
      rw [hp] at hd hmA hmH
      simp [isTransportLoopProc, holdsAngkutProc] at hmA hmH
      have hA : countA rest = 0 := by omega
      simp only [dispatch] at hd
      rw [releaseAngkut_of_empty { s with now := e.time, events := rest } hi.aq] at hd
      refine AInv_putStepA g b _ s2 hd hi.cap hi.aq hi.lq hi.nq ?_ hA
      show s.angkut.users - 1 = countHold rest
      omega
  | angkutPut rest' =>
      rw [hp] at hd hmA hmH
      simp [isTransportLoopProc, holdsAngkutProc] at hmA hmH
      have hA : countA rest = 0 := by omega
      simp only [dispatch] at hd
      exact AInv_putStepA g rest' _ s2 hd hi.cap hi.aq hi.lq hi.nq hmH hA
  | nasiLoop =>
      rw [hp] at hd hmA hmH hA0
      simp [isTransportLoopProc, holdsAngkutProc] at hmA hmH hA0
      have hm : AInv { s with now := e.time, events := rest } :=
        ⟨hi.cap, hi.aq, hi.lq, hi.nq, hmH, hmA, hA0⟩
      simp only [dispatch] at hd
      obtain rfl := Option.some.inj hd
      exact AInv_nasiLoopStep _ hm
  | nasiGot item =>
      rw [hp] at hd hmA hmH hA0
      simp [isTransportLoopProc, holdsAngkutProc] at hmA hmH hA0
      have hm : AInv { s with now := e.time, events := rest } :=
        ⟨hi.cap, hi.aq, hi.lq, hi.nq, hmH, hmA, hA0⟩
      simp only [dispatch] at hd
      obtain rfl := Option.some.inj hd
      exact AInv_requestNasi _ _ rfl hm
  | nasiGranted item =>
      rw [hp] at hd hmA hmH hA0
      simp [isTransportLoopProc, holdsAngkutProc] at hmA hmH hA0
      have hm : AInv { s with now := e.time, events := rest } :=
        ⟨hi.cap, hi.aq, hi.lq, hi.nq, hmH, hmA, hA0⟩
      simp only [dispatch] at hd
      obtain rfl := Option.some.inj hd
      exact AInv_schedule _ _ _ _ rfl
        ⟨hm.cap, hm.aq, hm.lq, hm.nq, hm.users, hm.one, hm.done⟩
  | nasiDone item mulai t =>
      rw [hp] at hd hmA hmH hA0
      simp [isTransportLoopProc, holdsAngkutProc] at hmA hmH hA0
      have hm : AInv { s with now := e.time, events := rest } :=
        ⟨hi.cap, hi.aq, hi.lq, hi.nq, hmH, hmA, hA0⟩
      simp only [dispatch, Option.some.injEq] at hd
      subst hd
      have hrel := AInv_releaseNasi _ hm
      refine AInv_nasiLoopStep _ ⟨hrel.cap, hrel.aq, hrel.lq, hrel.nq, hrel.users, hrel.one, ?_⟩
      intro hc
      exact le_trans (hrel.done hc) (Nat.le_succ _)

theorem stepsTo_AInv (g : ℕ → ℕ) (n : ℕ) (s s2 : State)
    (h : stepsTo g n s = some s2) (hi : AInv s) : AInv s2 := by
  induction n generalizing s with
  | zero => obtain rfl := Option.some.inj h; exact hi
  | succ n ih =>
      unfold stepsTo at h
      cases hs : step g s with
      | running s3 =>
          rw [hs] at h
          exact ih s3 h (step_AInv g s s3 hs hi)
      | finished s3 => rw [hs] at h; cases h
      | failed => rw [hs] at h; cases h

theorem runState_AInv (c : Config) (s0 : State) (hcap : 1 ≤ c.PETUGAS_ANGKUT)
    (h : runState c = some s0) : AInv s0 := by
  rw [runState_eq c s0 h]
  refine ⟨hcap, rfl, ?_, ?_, rfl, ?_, ?_⟩
  · intro p hp; cases hp
  · intro p hp; cases hp
  · show countA [⟨0, 0, 0, .gen 0⟩, ⟨0, 0, 1, .angkutLoop⟩, ⟨0, 0, 2, .nasiLoop⟩] ≤ 1
    decide
  · intro hc
    exact absurd
      (show countA [⟨0, 0, 0, .gen 0⟩, ⟨0, 0, 1, .angkutLoop⟩, ⟨0, 0, 2, .nasiLoop⟩] = 0
        from hc)
      (by decide)

/-! ## Claim C3 -/

/-- Claim C3: for every configuration with a positive transport server count
(part of "all counts positive"), a completed run — a reachable state whose
event heap is empty, which is exactly when `env.run()` returns — holds
exactly `TOTAL_OMPRENG = NUM_MEJA * MAHASISWA_PER_MEJA` records in
`self.data`, and their ids are precisely `0 … TOTAL_OMPRENG - 1`, each once:
no unit is lost and none is duplicated. -/
theorem c3_conservation (g : ℕ → ℕ) (c : Config) (s : State)
    (hcap : 1 ≤ c.PETUGAS_ANGKUT) (hreach : Reachable g c s)
    (hterm : s.events = []) :
    s.data.length = c.TOTAL_OMPRENG ∧
    ((s.data.map Row.id : List ℕ) : Multiset ℕ) = Multiset.range c.TOTAL_OMPRENG := by
  obtain ⟨s0, n, hrun, hsteps⟩ := hreach
  have ha : AInv s := stepsTo_AInv g n s0 s hsteps (runState_AInv c s0 hcap hrun)
  have hc10 : s.completed = s.data.length := by
    refine stepsTo_completed_len g n s0 s hsteps ?_
    rw [runState_eq c s0 hrun]
    rfl
  have hcfg : s.cfg = c := by
    obtain ⟨h1, _, _, _⟩ := stepsTo_cfg_pools g n s0 s hsteps
    rw [h1, runState_eq c s0 hrun]
  have hsys : sysIds s = Multiset.range c.TOTAL_OMPRENG := by
    rw [stepsTo_sysIds g n s0 s hsteps, runState_sysIds c s0 hrun]
  have hdone : c.TOTAL_OMPRENG ≤ s.completed := by
    have h0 : countA s.events = 0 := by rw [hterm]; rfl
    have hd := ha.done h0
    rwa [hcfg] at hd
  have hle : ((s.data.map Row.id : List ℕ) : Multiset ℕ)
      ≤ Multiset.range c.TOTAL_OMPRENG := by
    rw [← hsys]
    unfold sysIds
    exact Multiset.le_add_left _ _
  have hlen : s.data.length ≤ c.TOTAL_OMPRENG := by
    have hcard := Multiset.card_le_card hle
    simpa using hcard
  have hlen2 : s.data.length = c.TOTAL_OMPRENG := by omega
  refine ⟨hlen2, ?_⟩
  refine Multiset.eq_of_le_of_card_le hle ?_
  rw [Multiset.card_range]
  simp [hlen2]

/-- Claim C3, witness: the terminated scenario run has exactly 6 records
with ids 0…5. -/
theorem c3_conservation_witness :
    (1 ≤ scenarioConfig.PETUGAS_ANGKUT) ∧
    (scenarioFinal.events = []) ∧
    (scenarioFinal.data.length = scenarioConfig.TOTAL_OMPRENG ∧
      ((scenarioFinal.data.map Row.id : List ℕ) : Multiset ℕ)
        = Multiset.range scenarioConfig.TOTAL_OMPRENG) :=
  ⟨by decide, by decide,
    c3_conservation zStream scenarioConfig scenarioFinal (by decide)
      ⟨scenarioStart, 235, by decide, by decide⟩ (by decide)⟩

/-! ## Claim C8: transport batch-size bounds -/

theorem mem_insertEvent {x e : Event} {q : List Event}
    (h : x ∈ insertEvent e q) : x = e ∨ x ∈ q := by
  have hm := (insertEvent_perm e q).mem_iff.mp h
  exact List.mem_cons.mp hm

theorem randintDraw_bounds {a b v k : ℕ} (h : randintDraw a b v = some k) :
    a ≤ k ∧ k ≤ b := by
  unfold randintDraw at h
  split at h
  · rename_i hab
    obtain rfl := Option.some.inj h
    have : v % (b + 1 - a) < b + 1 - a := Nat.mod_lt _ (by omega)
    omega
  · cases h

/-- Size bookkeeping of the transport batches in flight: a batch being
drained (`angkutDrain k b`) is non-empty and would reach at most
`ANGKUT_MAX_LOAD` after its `k` remaining gets; a batch being carried
(`angkutGranted`/`angkutDone`) is within `[1, ANGKUT_MAX_LOAD]` (the lower
bound requires `ANGKUT_MIN_LOAD ≥ 1`). -/
def batchOK (c : Config) : Proc → Prop
  | .angkutDrain k b => 1 ≤ b.length ∧ k + b.length ≤ c.ANGKUT_MAX_LOAD
  | .angkutGranted b => (1 ≤ c.ANGKUT_MIN_LOAD → 1 ≤ b.length) ∧ b.length ≤ c.ANGKUT_MAX_LOAD
  | .angkutDone b _ => (1 ≤ c.ANGKUT_MIN_LOAD → 1 ≤ b.length) ∧ b.length ≤ c.ANGKUT_MAX_LOAD
  | _ => True

/-- `batchOK` holds for every suspended generator anywhere in the system. -/
def BInv (s : State) : Prop :=
  (∀ e ∈ s.events, batchOK s.cfg e.proc) ∧
  (∀ p ∈ s.lauk.queue, batchOK s.cfg p) ∧
  (∀ p ∈ s.angkut.queue, batchOK s.cfg p) ∧
  (∀ p ∈ s.nasi.queue, batchOK s.cfg p)

theorem BInv_schedule (x : State) (t p : ℕ) (c : Proc)
    (hc : batchOK x.cfg c) (hx : BInv x) : BInv (schedule x t p c) := by
  obtain ⟨h1, h2, h3, h4⟩ := hx
  refine ⟨?_, h2, h3, h4⟩
  intro e he
  rcases mem_insertEvent he with rfl | he'
  · exact hc
  · exact h1 e he'

theorem BInv_requestLauk (x : State) (c : Proc)
    (hc : batchOK x.cfg c) (hx : BInv x) : BInv (requestLauk x c) := by
  unfold requestLauk
  split
  · obtain ⟨h1, h2, h3, h4⟩ := BInv_schedule x x.now 1 c hc hx
    exact ⟨h1, h2, h3, h4⟩
  · obtain ⟨h1, h2, h3, h4⟩ := hx
    refine ⟨h1, ?_, h3, h4⟩
    intro p hp
    rcases List.mem_append.1 hp with hp | hp
    · exact h2 p hp
    · rw [List.mem_singleton.1 hp]; exact hc

theorem BInv_requestAngkut (x : State) (c : Proc)
    (hc : batchOK x.cfg c) (hx : BInv x) : BInv (requestAngkut x c) := by
  unfold requestAngkut
  split
  · obtain ⟨h1, h2, h3, h4⟩ := BInv_schedule x x.now 1 c hc hx
    exact ⟨h1, h2, h3, h4⟩
  · obtain ⟨h1, h2, h3, h4⟩ := hx
    refine ⟨h1, h2, ?_, h4⟩
    intro p hp
    rcases List.mem_append.1 hp with hp | hp
    · exact h3 p hp
    · rw [List.mem_singleton.1 hp]; exact hc

theorem BInv_requestNasi (x : State) (c : Proc)
    (hc : batchOK x.cfg c) (hx : BInv x) : BInv (requestNasi x c) := by
  unfold requestNasi
  split
  · obtain ⟨h1, h2, h3, h4⟩ := BInv_schedule x x.now 1 c hc hx
    exact ⟨h1, h2, h3, h4⟩
  · obtain ⟨h1, h2, h3, h4⟩ := hx
    refine ⟨h1, h2, h3, ?_⟩
    intro p hp
    rcases List.mem_append.1 hp with hp | hp
    · exact h4 p hp
    · rw [List.mem_singleton.1 hp]; exact hc

theorem BInv_releaseLauk (x : State) (hx : BInv x) : BInv (releaseLauk x) := by
  unfold releaseLauk
  split
  · obtain ⟨h1, h2, h3, h4⟩ := hx
    exact ⟨h1, by simpa using h2, h3, h4⟩
  · rename_i c rest hq
    obtain ⟨h1, h2, h3, h4⟩ := hx
    have hc := h2 c (by rw [hq]; exact List.mem_cons_self c rest)
    exact BInv_schedule { x with lauk := { x.lauk with queue := rest } } x.now 1 c hc
      ⟨h1, fun p hp => h2 p (by rw [hq]; exact List.mem_cons_of_mem c hp), h3, h4⟩

theorem BInv_releaseAngkut (x : State) (hx : BInv x) : BInv (releaseAngkut x) := by
  unfold releaseAngkut
  split
  · obtain ⟨h1, h2, h3, h4⟩ := hx
    exact ⟨h1, h2, by simpa using h3, h4⟩
  · rename_i c rest hq
    obtain ⟨h1, h2, h3, h4⟩ := hx
    have hc := h3 c (by rw [hq]; exact List.mem_cons_self c rest)
    exact BInv_schedule { x with angkut := { x.angkut with queue := rest } } x.now 1 c hc
      ⟨h1, h2, fun p hp => h3 p (by rw [hq]; exact List.mem_cons_of_mem c hp), h4⟩

theorem BInv_releaseNasi (x : State) (hx : BInv x) : BInv (releaseNasi x) := by
  unfold releaseNasi
  split
  · obtain ⟨h1, h2, h3, h4⟩ := hx
    exact ⟨h1, h2, h3, by simpa using h4⟩
  · rename_i c rest hq
    obtain ⟨h1, h2, h3, h4⟩ := hx
    have hc := h4 c (by rw [hq]; exact List.mem_cons_self c rest)
    exact BInv_schedule { x with nasi := { x.nasi with queue := rest } } x.now 1 c hc
      ⟨h1, h2, h3, fun p hp => h4 p (by rw [hq]; exact List.mem_cons_of_mem c hp)⟩

theorem BInv_nasiLoopStep (x : State) (hx : BInv x) : BInv (nasiLoopStep x) := by
  unfold nasiLoopStep
  split
  · exact hx
  · split
    · obtain ⟨g1, g2, g3, g4⟩ := BInv_schedule x _ 1 .nasiLoop trivial hx
      exact ⟨g1, g2, g3, g4⟩
    · obtain ⟨h1, h2, h3, h4⟩ := hx
      obtain ⟨g1, g2, g3, g4⟩ := BInv_schedule { x with antrian_nasi := _ } x.now 1
        (.nasiGot _) trivial ⟨h1, h2, h3, h4⟩
      exact ⟨g1, g2, g3, g4⟩

theorem BInv_loopStep (g : ℕ → ℕ) (x s2 : State)
    (h : angkutLoopStep g x = some s2) (hx : BInv x) : BInv s2 := by
  unfold angkutLoopStep at h
  split at h
  · obtain rfl := Option.some.inj h
    exact hx
  · split at h
    · obtain rfl := Option.some.inj h
      obtain ⟨h1, h2, h3, h4⟩ := BInv_schedule x _ 1 .angkutLoop trivial hx
      exact ⟨h1, h2, h3, h4⟩
    · rename_i xi t hq
      split at h
      · cases h
      · rename_i kapOpt kap hk
        split at h
        · rename_i hmin0
          simp only [Option.some.injEq] at h
          subst h
          obtain ⟨h1, h2, h3, h4⟩ := hx
          refine BInv_requestAngkut _ (.angkutGranted []) ?_ ⟨h1, h2, h3, h4⟩
          refine ⟨?_, Nat.zero_le _⟩
          intro hmin
          have hminx : 1 ≤ x.cfg.ANGKUT_MIN_LOAD := hmin
          obtain ⟨hk1, hk2⟩ := randintDraw_bounds hk
          exfalso
          have hmle := Nat.min_le_left kap (xi :: t).length
          have hmle2 := Nat.min_le_right kap (xi :: t).length
          have hz : min kap (xi :: t).length = 0 := hmin0
          simp only [List.length_cons] at hmle2 hz
          omega
        · rename_i k hminS
          simp only [Option.some.injEq] at h
          subst h
          obtain ⟨h1, h2, h3, h4⟩ := hx
          refine BInv_schedule _ _ 1 (.angkutDrain k [xi]) ?_ ⟨h1, h2, h3, h4⟩
          obtain ⟨hk1, hk2⟩ := randintDraw_bounds hk
          have hmle := Nat.min_le_left kap (xi :: t).length
          have hs : min kap (xi :: t).length = k + 1 := hminS
          refine ⟨by simp, ?_⟩
          simp only [List.length_singleton]
          show k + 1 ≤ x.cfg.ANGKUT_MAX_LOAD
          omega

theorem BInv_putStep (g : ℕ → ℕ) (b : List Item) (x s2 : State)
    (h : angkutPutStep g b x = some s2) (hx : BInv x) : BInv s2 := by
  unfold angkutPutStep at h
  split at h
  · exact BInv_loopStep g x s2 h hx
  · obtain rfl := Option.some.inj h
    obtain ⟨h1, h2, h3, h4⟩ := hx
    exact BInv_schedule _ _ 1 (.angkutPut _) trivial ⟨h1, h2, h3, h4⟩

theorem dispatch_BInv (g : ℕ → ℕ) (p : Proc) (s s2 : State)
    (h : dispatch g p s = some s2) (hpOK : batchOK s.cfg p) (hs : BInv s) :
    BInv s2 := by
  cases p with
  | gen i =>
      simp only [dispatch] at h
      split at h <;> obtain rfl := Option.some.inj h
      · exact BInv_schedule _ _ 1 _ trivial (BInv_schedule _ _ 0 _ trivial hs)
      · exact hs
  | ompStart i =>
      simp only [dispatch] at h
      obtain rfl := Option.some.inj h
      exact BInv_requestLauk _ _ trivial hs
  | ompGranted i datang =>
      simp only [dispatch] at h
      obtain rfl := Option.some.inj h
      obtain ⟨h1, h2, h3, h4⟩ := hs
      exact BInv_schedule _ _ 1 _ trivial ⟨h1, h2, h3, h4⟩
  | ompServiceDone i datang mulai t =>
      simp only [dispatch, Option.some.injEq] at h
      subst h
      obtain ⟨h1, h2, h3, h4⟩ := BInv_releaseLauk s hs
      exact BInv_schedule _ _ 1 .nop trivial ⟨h1, h2, h3, h4⟩
  | nop =>
      simp only [dispatch] at h
      obtain rfl := Option.some.inj h
      exact hs
  | angkutLoop =>
      simp only [dispatch] at h
      exact BInv_loopStep g s s2 h hs
  | angkutDrain k b =>
      simp only [dispatch] at h
      obtain ⟨hb1, hb2⟩ := hpOK
      split at h
      · obtain rfl := Option.some.inj h
        exact BInv_requestAngkut _ _ ⟨fun _ => hb1, by omega⟩ hs
      · split at h
        · obtain rfl := Option.some.inj h
          exact BInv_requestAngkut _ _ ⟨fun _ => hb1, by omega⟩ hs
        · rename_i x t hq
          obtain rfl := Option.some.inj h
          obtain ⟨h1, h2, h3, h4⟩ := hs
          refine BInv_schedule _ _ 1 (.angkutDrain _ (b ++ [x])) ?_ ⟨h1, h2, h3, h4⟩
          refine ⟨by simp, ?_⟩
          simp only [List.length_append, List.length_singleton]
          omega
  | angkutGranted b =>
      simp only [dispatch] at h
      obtain rfl := Option.some.inj h
      obtain ⟨h1, h2, h3, h4⟩ := hs
      exact BInv_schedule _ _ 1 (.angkutDone b _) hpOK ⟨h1, h2, h3, h4⟩
  | angkutDone b t =>
      simp only [dispatch] at h
      obtain ⟨h1, h2, h3, h4⟩ := BInv_releaseAngkut s hs
      exact BInv_putStep g b _ s2 h ⟨h1, h2, h3, h4⟩
  | angkutPut rest =>
      simp only [dispatch] at h
      exact BInv_putStep g rest s s2 h hs
  | nasiLoop =>
      simp only [dispatch] at h
      obtain rfl := Option.some.inj h
      exact BInv_nasiLoopStep s hs
  | nasiGot item =>
      simp only [dispatch] at h
      obtain rfl := Option.some.inj h
      exact BInv_requestNasi _ _ trivial hs
  | nasiGranted item =>
      simp only [dispatch] at h
      obtain rfl := Option.some.inj h
      obtain ⟨h1, h2, h3, h4⟩ := hs
      exact BInv_schedule _ _ 1 _ trivial ⟨h1, h2, h3, h4⟩
  | nasiDone item mulai t =>
      simp only [dispatch, Option.some.injEq] at h
      subst h
      obtain ⟨h1, h2, h3, h4⟩ := BInv_releaseNasi s hs
      exact BInv_nasiLoopStep _ ⟨h1, h2, h3, h4⟩

theorem step_BInv (g : ℕ → ℕ) (s s2 : State) (h : step g s = .running s2)
    (hs : BInv s) : BInv s2 := by
  obtain ⟨e, rest, hev, hd⟩ := step_running_elim g s s2 h
  obtain ⟨h1, h2, h3, h4⟩ := hs
  have hpOK : batchOK s.cfg e.proc :=
    h1 e (by rw [hev]; exact List.mem_cons_self e rest)
  have hm : BInv { s with now := e.time, events := rest } :=
    ⟨fun e' he' => h1 e' (by rw [hev]; exact List.mem_cons_of_mem e he'), h2, h3, h4⟩
  exact dispatch_BInv g e.proc _ s2 hd hpOK hm

theorem stepsTo_BInv (g : ℕ → ℕ) (n : ℕ) (s s2 : State)
    (h : stepsTo g n s = some s2) (hs : BInv s) : BInv s2 := by
  induction n generalizing s with
  | zero => obtain rfl := Option.some.inj h; exact hs
  | succ n ih =>
      unfold stepsTo at h
      cases hstep : step g s with
      | running s3 =>
          rw [hstep] at h
          exact ih s3 h (step_BInv g s s3 hstep hs)
      | finished s3 => rw [hstep] at h; cases h
      | failed => rw [hstep] at h; cases h

theorem runState_BInv (c : Config) (s0 : State) (h : runState c = some s0) :
    BInv s0 := by
  rw [runState_eq c s0 h]
  refine ⟨?_, ?_, ?_, ?_⟩
  · intro e he
    rcases List.mem_cons.1 he with rfl | he'
    · trivial
    · rcases List.mem_cons.1 he' with rfl | he''
      · trivial
      · rcases List.mem_cons.1 he'' with rfl | he'''
        · trivial
        · cases he'''
  · intro p hp; cases hp
  · intro p hp; cases hp
  · intro p hp; cases hp

/-- The number of store gets a pending `angkutDrain` still has to issue
never exceeds what is currently in `antrian_lauk`: a batch never drains
more than is present, so batch formation never blocks on the store. -/
def DrainInv (s : State) : Prop :=
  ∀ e ∈ s.events, ∀ k b, e.proc = .angkutDrain k b → k ≤ s.antrian_lauk.length

theorem countA_zero_no_drain {l : List Event} (h : countA l = 0)
    {e : Event} (he : e ∈ l) (k : ℕ) (b : List Item)
    (hp : e.proc = .angkutDrain k b) : False := by
  have := (List.countP_eq_zero.mp h) e he
  rw [hp] at this
  simp [isTransportLoopProc] at this

theorem releaseLauk_of_empty (x : State) (hq : x.lauk.queue = []) :
    releaseLauk x = { x with lauk := { x.lauk with users := x.lauk.users - 1 } } := by
  unfold releaseLauk
  split
  · rfl
  · rename_i c rest hq2
    rw [hq] at hq2
    cases hq2

theorem releaseLauk_of_cons (x : State) (c : Proc) (rest : List Proc)
    (hq : x.lauk.queue = c :: rest) :
    releaseLauk x = schedule { x with lauk := { x.lauk with queue := rest } } x.now 1 c := by
  unfold releaseLauk
  split
  · rename_i hq2
    rw [hq] at hq2
    cases hq2
  · rename_i c' rest' hq2
    rw [hq] at hq2
    cases hq2
    rfl

theorem releaseNasi_of_empty (x : State) (hq : x.nasi.queue = []) :
    releaseNasi x = { x with nasi := { x.nasi with users := x.nasi.users - 1 } } := by
  unfold releaseNasi
  split
  · rfl
  · rename_i c rest hq2
    rw [hq] at hq2
    cases hq2

theorem releaseNasi_of_cons (x : State) (c : Proc) (rest : List Proc)
    (hq : x.nasi.queue = c :: rest) :
    releaseNasi x = schedule { x with nasi := { x.nasi with queue := rest } } x.now 1 c := by
  unfold releaseNasi
  split
  · rename_i hq2
    rw [hq] at hq2
    cases hq2
  · rename_i c' rest' hq2
    rw [hq] at hq2
    cases hq2
    rfl

theorem DrainInv_loopStepA (g : ℕ → ℕ) (x s2 : State)
    (h : angkutLoopStep g x = some s2)
    (hnoD : ∀ e' ∈ x.events, ∀ k b, e'.proc ≠ .angkutDrain k b) : DrainInv s2 := by
  unfold angkutLoopStep at h
  split at h
  · obtain rfl := Option.some.inj h
    intro e' he' k b hpe
    exact absurd hpe (hnoD e' he' k b)
  · split at h
    · obtain rfl := Option.some.inj h
      intro e' he' k b hpe
      rcases mem_insertEvent he' with rfl | he'
      · simp at hpe
      · exact absurd hpe (hnoD e' he' k b)
    · rename_i xi t hq
      split at h
      · cases h
      · rename_i kapOpt kap hk
        split at h
        · simp only [Option.some.injEq] at h
          subst h
          unfold requestAngkut
          split
          · intro e' he' k b hpe
            rcases mem_insertEvent he' with rfl | he'
            · simp at hpe
            · exact absurd hpe (hnoD e' he' k b)
          · intro e' he' k b hpe
            exact absurd hpe (hnoD e' he' k b)
        · rename_i k0 hminS
          simp only [Option.some.injEq] at h
          subst h
          intro e' he' k b hpe
          rcases mem_insertEvent he' with rfl | he'
          · have hms : min kap (xi :: t).length = k0 + 1 := hminS
            have hmle2 := Nat.min_le_right kap (xi :: t).length
            simp only [List.length_cons] at hms hmle2
            simp only at hpe
            cases hpe
            simp only [schedule_antrian_lauk]
            show k0 ≤ t.length
            omega
          · exact absurd hpe (hnoD e' he' k b)

theorem DrainInv_putStepA (g : ℕ → ℕ) (b : List Item) (x s2 : State)
    (h : angkutPutStep g b x = some s2)
    (hnoD : ∀ e' ∈ x.events, ∀ k bb, e'.proc ≠ .angkutDrain k bb) : DrainInv s2 := by
  unfold angkutPutStep at h
  split at h
  · exact DrainInv_loopStepA g x s2 h hnoD
  · obtain rfl := Option.some.inj h
    intro e' he' k bb hpe
    rcases mem_insertEvent he' with rfl | he'
    · simp at hpe
    · exact absurd hpe (hnoD e' he' k bb)

theorem DrainInv_nasiLoopStep (x : State) (hx : DrainInv x) : DrainInv (nasiLoopStep x) := by
  unfold nasiLoopStep
  split
  · exact hx
  · split
    · intro e' he' k b hpe
      rcases mem_insertEvent he' with rfl | he'
      · simp at hpe
      · exact hx e' he' k b hpe
    · intro e' he' k b hpe
      rcases mem_insertEvent he' with rfl | he'
      · simp at hpe
      · exact hx e' he' k b hpe

theorem step_DrainInv (g : ℕ → ℕ) (s s2 : State) (h : step g s = .running s2)
    (hA : AInv s) (hD : DrainInv s) : DrainInv s2 := by
  obtain ⟨e, rest, hev, hd⟩ := step_running_elim g s s2 h
  have hDrest : ∀ e' ∈ rest, ∀ k b, e'.proc = .angkutDrain k b →
      k ≤ s.antrian_lauk.length :=
    fun e' he' k b hp => hD e' (by rw [hev]; exact List.mem_cons_of_mem e he') k b hp
  have hmA := hA.one
  rw [hev, countA_cons] at hmA
  cases hp : e.proc with
  | gen i =>
      rw [hp] at hd
      simp only [dispatch] at hd
      split at hd <;> obtain rfl := Option.some.inj hd
      · intro e' he' k b hpe
        rcases mem_insertEvent he' with rfl | he'
        · simp at hpe
        · rcases mem_insertEvent he' with rfl | he'
          · simp at hpe
          · exact hDrest e' he' k b hpe
      · exact hDrest
  | ompStart i =>
      rw [hp] at hd
      simp only [dispatch] at hd
      obtain rfl := Option.some.inj hd
      unfold requestLauk
      split
      · intro e' he' k b hpe
        rcases mem_insertEvent he' with rfl | he'
        · simp at hpe
        · exact hDrest e' he' k b hpe
      · exact hDrest
  | ompGranted i datang =>
      rw [hp] at hd
      simp only [dispatch] at hd
      obtain rfl := Option.some.inj hd
      intro e' he' k b hpe
      rcases mem_insertEvent he' with rfl | he'
      · simp at hpe
      · exact hDrest e' he' k b hpe
  | ompServiceDone i datang mulai t =>
      rw [hp] at hd
      simp only [dispatch, Option.some.injEq] at hd
      cases hq : s.lauk.queue with
      | nil =>
          rw [releaseLauk_of_empty { s with now := e.time, events := rest } hq] at hd
          subst hd
          intro e' he' k b hpe
          rcases mem_insertEvent he' with rfl | he'
          · simp at hpe
          · have hk := hDrest e' he' k b hpe
            simp only [schedule_antrian_lauk, List.length_append, List.length_singleton]
            omega
      | cons c restq =>
          rw [releaseLauk_of_cons { s with now := e.time, events := rest } c restq hq] at hd
          subst hd
          intro e' he' k b hpe
          rcases mem_insertEvent he' with rfl | he'
          · simp at hpe
          · rcases mem_insertEvent he' with rfl | he'
            · have hc := hA.lq c (by rw [hq]; exact List.mem_cons_self c restq)
              have hpe2 : c = Proc.angkutDrain k b := hpe
              rw [hpe2] at hc
              simp [isTransportLoopProc] at hc
            · have hk := hDrest e' he' k b hpe
              simp only [schedule_antrian_lauk, List.length_append, List.length_singleton]
              omega
  | nop =>
      rw [hp] at hd
      simp only [dispatch] at hd
      obtain rfl := Option.some.inj hd
      exact hDrest
  | angkutLoop =>
      rw [hp] at hd
      simp only [dispatch] at hd
      rw [hp] at hmA
      simp [isTransportLoopProc] at hmA
      have hA0 : countA rest = 0 := by omega
      exact DrainInv_loopStepA g _ s2 hd
        (fun e' he' k b hpe => countA_zero_no_drain hA0 he' k b hpe)
  | angkutDrain k0 b0 =>
      rw [hp] at hd
      simp only [dispatch] at hd
      rw [hp] at hmA
      simp [isTransportLoopProc] at hmA
      have hA0 : countA rest = 0 := by omega
      have hself : k0 ≤ s.antrian_lauk.length :=
        hD e (by rw [hev]; exact List.mem_cons_self e rest) k0 b0 hp
      cases k0 with
      | zero =>
          simp only [dispatch] at hd
          obtain rfl := Option.some.inj hd
          unfold requestAngkut
          split
          · intro e' he' k b hpe
            rcases mem_insertEvent he' with rfl | he'
            · simp at hpe
            · exact absurd hpe (fun hx => countA_zero_no_drain hA0 he' k b hx)
          · intro e' he' k b hpe
            exact absurd hpe (fun hx => countA_zero_no_drain hA0 he' k b hx)
      | succ k1 =>
          cases hxq : s.antrian_lauk with
          | nil =>
              simp only [dispatch, hxq] at hd
              obtain rfl := Option.some.inj hd
              unfold requestAngkut
              split
              · intro e' he' k b hpe
                rcases mem_insertEvent he' with rfl | he'
                · simp at hpe
                · exact absurd hpe (fun hx => countA_zero_no_drain hA0 he' k b hx)
              · intro e' he' k b hpe
                exact absurd hpe (fun hx => countA_zero_no_drain hA0 he' k b hx)
          | cons x t =>
              simp only [dispatch, hxq] at hd
              obtain rfl := Option.some.inj hd
              intro e' he' k b hpe
              rcases mem_insertEvent he' with rfl | he'
              · have hpe2 : Proc.angkutDrain k1 (b0 ++ [x]) = Proc.angkutDrain k b := hpe
                injection hpe2 with hk hb
                subst hk
                simp only [schedule_antrian_lauk]
                show k1 ≤ t.length
                rw [hxq] at hself
                simp only [List.length_cons] at hself
                omega
              · exact absurd hpe (fun hx => countA_zero_no_drain hA0 he' k b hx)
  | angkutGranted b =>
      rw [hp] at hd
      simp only [dispatch] at hd
      rw [hp] at hmA
      simp [isTransportLoopProc] at hmA
      have hA0 : countA rest = 0 := by omega
      obtain rfl := Option.some.inj hd
      intro e' he' k bb hpe
      rcases mem_insertEvent he' with rfl | he'
      · simp at hpe
      · exact absurd hpe (fun hx => countA_zero_no_drain hA0 he' k bb hx)
  | angkutDone b t =>
      rw [hp] at hd
      simp only [dispatch] at hd
      rw [hp] at hmA
      simp [isTransportLoopProc] at hmA
      have hA0 : countA rest = 0 := by omega
      rw [releaseAngkut_of_empty { s with now := e.time, events := rest } hA.aq] at hd
      exact DrainInv_putStepA g b _ s2 hd
        (fun e' he' k bb hpe => countA_zero_no_drain hA0 he' k bb hpe)
  | angkutPut rest' =>
      rw [hp] at hd
      simp only [dispatch] at hd
      rw [hp] at hmA
      simp [isTransportLoopProc] at hmA
      have hA0 : countA rest = 0 := by omega
      exact DrainInv_putStepA g rest' _ s2 hd
        (fun e' he' k bb hpe => countA_zero_no_drain hA0 he' k bb hpe)
  | nasiLoop =>
      rw [hp] at hd
      simp only [dispatch] at hd
      obtain rfl := Option.some.inj hd
      exact DrainInv_nasiLoopStep _ hDrest
  | nasiGot item =>
      rw [hp] at hd
      simp only [dispatch] at hd
      obtain rfl := Option.some.inj hd
      unfold requestNasi
      split
      · intro e' he' k b hpe
        rcases mem_insertEvent he' with rfl | he'
        · simp at hpe
        · exact hDrest e' he' k b hpe
      · exact hDrest
  | nasiGranted item =>
      rw [hp] at hd
      simp only [dispatch] at hd
      obtain rfl := Option.some.inj hd
      intro e' he' k b hpe
      rcases mem_insertEvent he' with rfl | he'
      · simp at hpe
      · exact hDrest e' he' k b hpe
  | nasiDone item mulai t =>
      rw [hp] at hd
      simp only [dispatch, Option.some.injEq] at hd
      cases hq : s.nasi.queue with
      | nil =>
          rw [releaseNasi_of_empty { s with now := e.time, events := rest } hq] at hd
          subst hd
          exact DrainInv_nasiLoopStep _ hDrest
      | cons c restq =>
          rw [releaseNasi_of_cons { s with now := e.time, events := rest } c restq hq] at hd
          subst hd
          refine DrainInv_nasiLoopStep _ ?_
          intro e' he' k b hpe
          rcases mem_insertEvent he' with rfl | he'
          · have hc := hA.nq c (by rw [hq]; exact List.mem_cons_self c restq)
            have hpe2 : c = Proc.angkutDrain k b := hpe
            rw [hpe2] at hc
            simp [isTransportLoopProc] at hc
          · exact hDrest e' he' k b hpe

theorem stepsTo_DrainInv (g : ℕ → ℕ) (n : ℕ) (s s2 : State)
    (h : stepsTo g n s = some s2) (hA : AInv s) (hD : DrainInv s) : DrainInv s2 := by
  induction n generalizing s with
  | zero => obtain rfl := Option.some.inj h; exact hD
  | succ n ih =>
      unfold stepsTo at h
      cases hs : step g s with
      | running s3 =>
          rw [hs] at h
          exact ih s3 h (step_AInv g s s3 hs hA) (step_DrainInv g s s3 hs hA hD)
      | finished s3 => rw [hs] at h; cases h
      | failed => rw [hs] at h; cases h

theorem runState_DrainInv (c : Config) (s0 : State) (h : runState c = some s0) :
    DrainInv s0 := by
  rw [runState_eq c s0 h]
  intro e he k b hpe
  rcases List.mem_cons.1 he with rfl | he'
  · cases hpe
  · rcases List.mem_cons.1 he' with rfl | he''
    · cases hpe
    · rcases List.mem_cons.1 he'' with rfl | he'''
      · cases hpe
      · cases he'''

/-- The `scenarioConfig` run 56 scheduler steps in: a state with a transport
batch drain (`angkutDrain`) pending on the heap. -/
def scenarioMid : State :=
  match stepsTo zStream 56 scenarioStart with
  | some s => s
  | none => dummyState

/-- Claim C8: in every reachable state of a run whose configuration has a
positive transport server count and `ANGKUT_MIN_LOAD ≥ 1`, every transport
batch in flight (`angkutGranted`/`angkutDone`) has between 1 and
`ANGKUT_MAX_LOAD` items, and every batch still being drained
(`angkutDrain k b`) is non-empty, would reach at most `ANGKUT_MAX_LOAD`
items after its `k` outstanding store gets, and those `k` gets never exceed
what `antrian_lauk` currently holds — so batch formation never blocks
waiting for more items. -/
theorem c8_batch_bounds (g : ℕ → ℕ) (c : Config) (s : State)
    (hcap : 1 ≤ c.PETUGAS_ANGKUT) (hmin : 1 ≤ c.ANGKUT_MIN_LOAD)
    (hreach : Reachable g c s) :
    ∀ e ∈ s.events,
      (∀ b, e.proc = .angkutGranted b →
        1 ≤ b.length ∧ b.length ≤ c.ANGKUT_MAX_LOAD) ∧
      (∀ b t, e.proc = .angkutDone b t →
        1 ≤ b.length ∧ b.length ≤ c.ANGKUT_MAX_LOAD) ∧
      (∀ k b, e.proc = .angkutDrain k b →
        1 ≤ b.length ∧ k + b.length ≤ c.ANGKUT_MAX_LOAD ∧
          k ≤ s.antrian_lauk.length) := by
  obtain ⟨s0, n, hrun, hsteps⟩ := hreach
  have hB : BInv s := stepsTo_BInv g n s0 s hsteps (runState_BInv c s0 hrun)
  have hD : DrainInv s :=
    stepsTo_DrainInv g n s0 s hsteps (runState_AInv c s0 hcap hrun)
      (runState_DrainInv c s0 hrun)
  have hcfg : s.cfg = c := by
    obtain ⟨h1, _, _, _⟩ := stepsTo_cfg_pools g n s0 s hsteps
    rw [h1, runState_eq c s0 hrun]
  intro e he
  have hb := hB.1 e he
  refine ⟨?_, ?_, ?_⟩
  · intro b hpe
    rw [hpe, hcfg] at hb
    simp only [batchOK] at hb
    exact ⟨hb.1 hmin, hb.2⟩
  · intro b t hpe
    rw [hpe, hcfg] at hb
    simp only [batchOK] at hb
    exact ⟨hb.1 hmin, hb.2⟩
  · intro k b hpe
    rw [hpe, hcfg] at hb
    simp only [batchOK] at hb
    exact ⟨hb.1, hb.2, hD e he k b hpe⟩

/-- Claim C8, witness: the scenario run 56 steps in, where an `angkutDrain`
resumption is pending. -/
theorem c8_batch_bounds_witness :
    (1 ≤ scenarioConfig.PETUGAS_ANGKUT) ∧ (1 ≤ scenarioConfig.ANGKUT_MIN_LOAD) ∧
    ∀ e ∈ scenarioMid.events,
      (∀ b, e.proc = .angkutGranted b →
        1 ≤ b.length ∧ b.length ≤ scenarioConfig.ANGKUT_MAX_LOAD) ∧
      (∀ b t, e.proc = .angkutDone b t →
        1 ≤ b.length ∧ b.length ≤ scenarioConfig.ANGKUT_MAX_LOAD) ∧
      (∀ k b, e.proc = .angkutDrain k b →
        1 ≤ b.length ∧ k + b.length ≤ scenarioConfig.ANGKUT_MAX_LOAD ∧
          k ≤ scenarioMid.antrian_lauk.length) :=
  ⟨by decide, by decide,
    c8_batch_bounds zStream scenarioConfig scenarioMid (by decide) (by decide)
      ⟨scenarioStart, 56, by decide, by decide⟩⟩

/-! ## Claim C4: ordering of the recorded timestamps -/

/-- Stamps of an item that has left the prep stage but has not yet been
stamped by the transport put loop (`selesai_angkut` still unset): arrival,
prep start and prep end are in order and lie in the past. -/
def ItemPre (now : ℕ) (it : Item) : Prop :=
  it.datang ≤ it.mulai_lauk ∧ it.mulai_lauk ≤ it.selesai_lauk ∧
    it.selesai_lauk ≤ now

/-- Stamps of an item after the transport put loop stamped
`selesai_angkut`. -/
def ItemPost (now : ℕ) (it : Item) : Prop :=
  it.datang ≤ it.mulai_lauk ∧ it.mulai_lauk ≤ it.selesai_lauk ∧
    ∃ sa, it.selesai_angkut = some sa ∧ it.selesai_lauk ≤ sa ∧ sa ≤ now

/-- The timestamp facts a suspended generator carries, relative to the
current clock. -/
def procOK (now : ℕ) : Proc → Prop
  | .ompGranted _ datang => datang ≤ now
  | .ompServiceDone _ datang mulai _ => datang ≤ mulai ∧ mulai ≤ now
  | .angkutDrain _ b => ∀ it ∈ b, ItemPre now it
  | .angkutGranted b => ∀ it ∈ b, ItemPre now it
  | .angkutDone b _ => ∀ it ∈ b, ItemPre now it
  | .angkutPut b => ∀ it ∈ b, ItemPre now it
  | .nasiGot it => ItemPost now it
  | .nasiGranted it => ItemPost now it
  | .nasiDone it mulai _ =>
      it.datang ≤ it.mulai_lauk ∧ it.mulai_lauk ≤ it.selesai_lauk ∧
        (∃ sa, it.selesai_angkut = some sa ∧ it.selesai_lauk ≤ sa ∧ sa ≤ mulai) ∧
        mulai ≤ now
  | _ => True

/-- The chain recorded in one result row (arrival time is recoverable as
`selesai_nasi - total_waktu`, hence the last conjunct). -/
def RowOK (r : Row) : Prop :=
  r.mulai_lauk ≤ r.selesai_lauk ∧ r.selesai_lauk ≤ r.mulai_nasi ∧
    r.mulai_nasi ≤ r.selesai_nasi ∧ r.selesai_nasi ≤ r.total_waktu + r.mulai_lauk

/-- The full ordering invariant: the heap is sorted by time and in the
future, and every suspended generator, parked requester, store item and
recorded row carries ordered stamps. -/
structure OrdInv (s : State) : Prop where
  sorted : s.events.Pairwise (fun a b => a.time ≤ b.time)
  hnow : ∀ e ∈ s.events, s.now ≤ e.time
  hev : ∀ e ∈ s.events, procOK s.now e.proc
  hlq : ∀ p ∈ s.lauk.queue, procOK s.now p
  haq : ∀ p ∈ s.angkut.queue, procOK s.now p
  hnq : ∀ p ∈ s.nasi.queue, procOK s.now p
  hal : ∀ it ∈ s.antrian_lauk, ItemPre s.now it
  han : ∀ it ∈ s.antrian_nasi, ItemPost s.now it
  hdata : ∀ r ∈ s.data, RowOK r

theorem ItemPre_mono {n n' : ℕ} (h : n ≤ n') {it : Item}
    (hi : ItemPre n it) : ItemPre n' it :=
  ⟨hi.1, hi.2.1, le_trans hi.2.2 h⟩

theorem ItemPost_mono {n n' : ℕ} (h : n ≤ n') {it : Item}
    (hi : ItemPost n it) : ItemPost n' it := by
  obtain ⟨h1, h2, sa, hsa, h3, h4⟩ := hi
  exact ⟨h1, h2, sa, hsa, h3, le_trans h4 h⟩

theorem procOK_mono {n n' : ℕ} (h : n ≤ n') {p : Proc}
    (hp : procOK n p) : procOK n' p := by
  cases p with
  | gen i => trivial
  | ompStart i => trivial
  | ompGranted i datang => exact le_trans hp h
  | ompServiceDone i datang mulai t => exact ⟨hp.1, le_trans hp.2 h⟩
  | nop => trivial
  | angkutLoop => trivial
  | angkutDrain k b => exact fun it hit => ItemPre_mono h (hp it hit)
  | angkutGranted b => exact fun it hit => ItemPre_mono h (hp it hit)
  | angkutDone b t => exact fun it hit => ItemPre_mono h (hp it hit)
  | angkutPut b => exact fun it hit => ItemPre_mono h (hp it hit)
  | nasiLoop => trivial
  | nasiGot it => exact ItemPost_mono h hp
  | nasiGranted it => exact ItemPost_mono h hp
  | nasiDone it mulai t =>
      obtain ⟨h1, h2, h3, h4⟩ := hp
      exact ⟨h1, h2, h3, le_trans h4 h⟩

theorem Event.before_le {a b : Event} (h : a.before b = true) :
    a.time ≤ b.time := by
  have h2 : a.time < b.time ∨ (a.time = b.time ∧
      (a.prio < b.prio ∨ (a.prio = b.prio ∧ a.eid < b.eid))) :=
    of_decide_eq_true h
  omega

theorem Event.not_before_le {a b : Event} (h : a.before b = false) :
    b.time ≤ a.time := by
  have h2 : ¬(a.time < b.time ∨ (a.time = b.time ∧
      (a.prio < b.prio ∨ (a.prio = b.prio ∧ a.eid < b.eid)))) :=
    of_decide_eq_false h
  omega

theorem insertEvent_pairwise {l : List Event} (e : Event)
    (h : l.Pairwise (fun a b => a.time ≤ b.time)) :
    (insertEvent e l).Pairwise (fun a b => a.time ≤ b.time) := by
  induction l with
  | nil => simp [insertEvent]
  | cons x xs ih =>
      rw [List.pairwise_cons] at h
      obtain ⟨hx, hxs⟩ := h
      unfold insertEvent
      split
      · rename_i hb
        refine List.Pairwise.cons ?_ (List.Pairwise.cons hx hxs)
        intro z hz
        rcases List.mem_cons.1 hz with rfl | hz'
        · exact Event.before_le hb
        · exact le_trans (Event.before_le hb) (hx z hz')
      · rename_i hb
        refine List.Pairwise.cons ?_ (ih hxs)
        intro z hz
        rcases mem_insertEvent hz with rfl | hz'
        · exact Event.not_before_le (Bool.eq_false_iff.mpr hb)
        · exact hx z hz'

theorem OrdInv_schedule (x : State) (t p : ℕ) (c : Proc)
    (ht : x.now ≤ t) (hc : procOK x.now c) (hx : OrdInv x) :
    OrdInv (schedule x t p c) := by
  refine ⟨?_, ?_, ?_, hx.hlq, hx.haq, hx.hnq, hx.hal, hx.han, hx.hdata⟩
  · show (insertEvent ⟨t, p, x.nextEid, c⟩ x.events).Pairwise
      (fun a b => a.time ≤ b.time)
    exact insertEvent_pairwise _ hx.sorted
  · intro e he
    rcases mem_insertEvent he with rfl | he'
    · exact ht
    · exact hx.hnow e he'
  · intro e he
    rcases mem_insertEvent he with rfl | he'
    · exact hc
    · exact hx.hev e he'

theorem OrdInv_requestLauk (x : State) (c : Proc)
    (hc : procOK x.now c) (hx : OrdInv x) : OrdInv (requestLauk x c) := by
  unfold requestLauk
  split
  · exact OrdInv_schedule _ _ _ _ le_rfl hc
      ⟨hx.sorted, hx.hnow, hx.hev, hx.hlq, hx.haq, hx.hnq, hx.hal, hx.han, hx.hdata⟩
  · refine ⟨hx.sorted, hx.hnow, hx.hev, ?_, hx.haq, hx.hnq, hx.hal, hx.han, hx.hdata⟩
    intro p hp
    rcases List.mem_append.1 hp with hp' | hp'
    · exact hx.hlq p hp'
    · obtain rfl := List.mem_singleton.1 hp'
      exact hc

theorem OrdInv_requestAngkut (x : State) (c : Proc)
    (hc : procOK x.now c) (hx : OrdInv x) : OrdInv (requestAngkut x c) := by
  unfold requestAngkut
  split
  · exact OrdInv_schedule _ _ _ _ le_rfl hc
      ⟨hx.sorted, hx.hnow, hx.hev, hx.hlq, hx.haq, hx.hnq, hx.hal, hx.han, hx.hdata⟩
  · refine ⟨hx.sorted, hx.hnow, hx.hev, hx.hlq, ?_, hx.hnq, hx.hal, hx.han, hx.hdata⟩
    intro p hp
    rcases List.mem_append.1 hp with hp' | hp'
    · exact hx.haq p hp'
    · obtain rfl := List.mem_singleton.1 hp'
      exact hc

theorem OrdInv_requestNasi (x : State) (c : Proc)
    (hc : procOK x.now c) (hx : OrdInv x) : OrdInv (requestNasi x c) := by
  unfold requestNasi
  split
  · exact OrdInv_schedule _ _ _ _ le_rfl hc
      ⟨hx.sorted, hx.hnow, hx.hev, hx.hlq, hx.haq, hx.hnq, hx.hal, hx.han, hx.hdata⟩
  · refine ⟨hx.sorted, hx.hnow, hx.hev, hx.hlq, hx.haq, ?_, hx.hal, hx.han, hx.hdata⟩
    intro p hp
    rcases List.mem_append.1 hp with hp' | hp'
    · exact hx.hnq p hp'
    · obtain rfl := List.mem_singleton.1 hp'
      exact hc

theorem OrdInv_releaseLauk (x : State) (hx : OrdInv x) : OrdInv (releaseLauk x) := by
  cases hq : x.lauk.queue with
  | nil =>
      rw [releaseLauk_of_empty x hq]
      exact ⟨hx.sorted, hx.hnow, hx.hev, hx.hlq,
        hx.haq, hx.hnq, hx.hal, hx.han, hx.hdata⟩
  | cons c rest =>
      rw [releaseLauk_of_cons x c rest hq]
      refine OrdInv_schedule _ _ _ _ le_rfl
        (hx.hlq c (by rw [hq]; exact List.mem_cons_self c rest))
        ⟨hx.sorted, hx.hnow, hx.hev, ?_, hx.haq, hx.hnq, hx.hal, hx.han, hx.hdata⟩
      intro p hp
      exact hx.hlq p (by rw [hq]; exact List.mem_cons_of_mem c hp)

theorem OrdInv_releaseAngkut (x : State) (hx : OrdInv x) : OrdInv (releaseAngkut x) := by
  cases hq : x.angkut.queue with
  | nil =>
      rw [releaseAngkut_of_empty x hq]
      exact ⟨hx.sorted, hx.hnow, hx.hev, hx.hlq, hx.haq,
        hx.hnq, hx.hal, hx.han, hx.hdata⟩
  | cons c rest =>
      have heq : releaseAngkut x
          = schedule { x with angkut := { x.angkut with queue := rest } } x.now 1 c := by
        unfold releaseAngkut
        split
        · rename_i hq2
          rw [hq] at hq2
          cases hq2
        · rename_i c' rest' hq2
          rw [hq] at hq2
          cases hq2
          rfl
      rw [heq]
      refine OrdInv_schedule _ _ _ _ le_rfl
        (hx.haq c (by rw [hq]; exact List.mem_cons_self c rest))
        ⟨hx.sorted, hx.hnow, hx.hev, hx.hlq, ?_, hx.hnq, hx.hal, hx.han, hx.hdata⟩
      intro p hp
      exact hx.haq p (by rw [hq]; exact List.mem_cons_of_mem c hp)

theorem OrdInv_releaseNasi (x : State) (hx : OrdInv x) : OrdInv (releaseNasi x) := by
  cases hq : x.nasi.queue with
  | nil =>
      rw [releaseNasi_of_empty x hq]
      exact ⟨hx.sorted, hx.hnow, hx.hev, hx.hlq, hx.haq, hx.hnq,
        hx.hal, hx.han, hx.hdata⟩
  | cons c rest =>
      rw [releaseNasi_of_cons x c rest hq]
      refine OrdInv_schedule _ _ _ _ le_rfl
        (hx.hnq c (by rw [hq]; exact List.mem_cons_self c rest))
        ⟨hx.sorted, hx.hnow, hx.hev, hx.hlq, hx.haq, ?_, hx.hal, hx.han, hx.hdata⟩
      intro p hp
      exact hx.hnq p (by rw [hq]; exact List.mem_cons_of_mem c hp)

theorem OrdInv_nasiLoopStep (x : State) (hx : OrdInv x) : OrdInv (nasiLoopStep x) := by
  unfold nasiLoopStep
  split
  · exact hx
  · split
    · exact OrdInv_schedule _ _ _ _ (Nat.le_add_right _ 2) True.intro hx
    · rename_i h t hq
      refine OrdInv_schedule _ _ _ _ le_rfl
        (hx.han h (by rw [hq]; exact List.mem_cons_self h t))
        ⟨hx.sorted, hx.hnow, hx.hev, hx.hlq, hx.haq, hx.hnq, hx.hal, ?_, hx.hdata⟩
      intro it hit
      exact hx.han it (by rw [hq]; exact List.mem_cons_of_mem h hit)

theorem OrdInv_loopStepA (g : ℕ → ℕ) (x s2 : State)
    (h : angkutLoopStep g x = some s2) (hx : OrdInv x) : OrdInv s2 := by
  unfold angkutLoopStep at h
  split at h
  · obtain rfl := Option.some.inj h
    exact hx
  · split at h
    · obtain rfl := Option.some.inj h
      exact OrdInv_schedule _ _ _ _ (Nat.le_add_right _ 2) True.intro hx
    · rename_i xi t hq
      split at h
      · cases h
      · rename_i kapOpt kap hk
        split at h
        · obtain rfl := Option.some.inj h
          refine OrdInv_requestAngkut _ (.angkutGranted []) ?_
            ⟨hx.sorted, hx.hnow, hx.hev, hx.hlq, hx.haq, hx.hnq, hx.hal, hx.han, hx.hdata⟩
          intro it hit
          cases hit
        · rename_i k hminS
          obtain rfl := Option.some.inj h
          refine OrdInv_schedule _ _ _ (.angkutDrain k [xi]) le_rfl ?_
            ⟨hx.sorted, hx.hnow, hx.hev, hx.hlq, hx.haq, hx.hnq, ?_, hx.han, hx.hdata⟩
          · intro it hit
            obtain rfl := List.mem_singleton.1 hit
            exact hx.hal it (by rw [hq]; exact List.mem_cons_self it t)
          · intro it hit
            exact hx.hal it (by rw [hq]; exact List.mem_cons_of_mem xi hit)

theorem OrdInv_putStepA (g : ℕ → ℕ) (b : List Item) (x s2 : State)
    (h : angkutPutStep g b x = some s2)
    (hb : ∀ it ∈ b, ItemPre x.now it) (hx : OrdInv x) : OrdInv s2 := by
  unfold angkutPutStep at h
  split at h
  · exact OrdInv_loopStepA g x s2 h hx
  · rename_i xh rest
    obtain rfl := Option.some.inj h
    refine OrdInv_schedule _ _ _ (.angkutPut rest) le_rfl ?_
      ⟨hx.sorted, hx.hnow, hx.hev, hx.hlq, hx.haq, hx.hnq, hx.hal, ?_, hx.hdata⟩
    · intro it hit
      exact hb it (List.mem_cons_of_mem xh hit)
    · intro it hit
      rcases List.mem_append.1 hit with hit' | hit'
      · exact hx.han it hit'
      · obtain rfl := List.mem_singleton.1 hit'
        have hpre := hb xh (List.mem_cons_self xh rest)
        exact ⟨hpre.1, hpre.2.1, x.now, rfl, hpre.2.2, le_rfl⟩

theorem step_OrdInv (g : ℕ → ℕ) (s s2 : State) (h : step g s = .running s2)
    (hi : OrdInv s) : OrdInv s2 := by
  obtain ⟨e, rest, hev, hd⟩ := step_running_elim g s s2 h
  have hnow0 : s.now ≤ e.time :=
    hi.hnow e (by rw [hev]; exact List.mem_cons_self e rest)
  have hsort := hi.sorted
  rw [hev, List.pairwise_cons] at hsort
  obtain ⟨hhead, htail⟩ := hsort
  have hx : OrdInv { s with now := e.time, events := rest } := by
    refine ⟨htail, hhead, ?_, ?_, ?_, ?_, ?_, ?_, hi.hdata⟩
    · intro e' he'
      exact procOK_mono hnow0
        (hi.hev e' (by rw [hev]; exact List.mem_cons_of_mem e he'))
    · intro p hp
      exact procOK_mono hnow0 (hi.hlq p hp)
    · intro p hp
      exact procOK_mono hnow0 (hi.haq p hp)
    · intro p hp
      exact procOK_mono hnow0 (hi.hnq p hp)
    · intro it hit
      exact ItemPre_mono hnow0 (hi.hal it hit)
    · intro it hit
      exact ItemPost_mono hnow0 (hi.han it hit)
  have hpOK : procOK e.time e.proc :=
    procOK_mono hnow0 (hi.hev e (by rw [hev]; exact List.mem_cons_self e rest))
  cases hp : e.proc with
  | gen i =>
      rw [hp] at hd
      simp only [dispatch] at hd
      split at hd <;> obtain rfl := Option.some.inj hd
      · exact OrdInv_schedule _ _ _ _ le_rfl True.intro
          (OrdInv_schedule _ _ _ _ le_rfl True.intro hx)
      · exact hx
  | ompStart i =>
      rw [hp] at hd
      simp only [dispatch] at hd
      obtain rfl := Option.some.inj hd
      exact OrdInv_requestLauk _ _ le_rfl hx
  | ompGranted i datang =>
      rw [hp] at hd
      rw [hp] at hpOK
      simp only [dispatch] at hd
      obtain rfl := Option.some.inj hd
      exact OrdInv_schedule _ _ _ _ (Nat.le_add_right _ _) ⟨hpOK, le_rfl⟩
        ⟨hx.sorted, hx.hnow, hx.hev, hx.hlq, hx.haq, hx.hnq, hx.hal, hx.han, hx.hdata⟩
  | ompServiceDone i datang mulai t =>
      rw [hp] at hd
      rw [hp] at hpOK
      simp only [dispatch] at hd
      obtain rfl := Option.some.inj hd
      have h1 := OrdInv_releaseLauk { s with now := e.time, events := rest } hx
      refine OrdInv_schedule _ _ _ .nop le_rfl True.intro
        ⟨h1.sorted, h1.hnow, h1.hev, h1.hlq, h1.haq, h1.hnq, ?_, h1.han, h1.hdata⟩
      intro it hit
      rcases List.mem_append.1 hit with hit' | hit'
      · exact h1.hal it hit'
      · obtain rfl := List.mem_singleton.1 hit'
        refine ⟨hpOK.1, ?_, le_rfl⟩
        show mulai ≤ (releaseLauk { s with now := e.time, events := rest }).now
        rw [releaseLauk_now]
        exact hpOK.2
  | nop =>
      rw [hp] at hd
      simp only [dispatch] at hd
      obtain rfl := Option.some.inj hd
      exact hx
  | angkutLoop =>
      rw [hp] at hd
      simp only [dispatch] at hd
      exact OrdInv_loopStepA g _ s2 hd hx
  | angkutDrain k0 b0 =>
      rw [hp] at hd
      rw [hp] at hpOK
      cases k0 with
      | zero =>
          simp only [dispatch] at hd
          obtain rfl := Option.some.inj hd
          exact OrdInv_requestAngkut _ _ hpOK hx
      | succ k1 =>
          cases hxq : s.antrian_lauk with
          | nil =>
              simp only [dispatch, hxq] at hd
              obtain rfl := Option.some.inj hd
              refine OrdInv_requestAngkut _ _ hpOK
                ⟨hx.sorted, hx.hnow, hx.hev, hx.hlq, hx.haq, hx.hnq, ?_, hx.han, hx.hdata⟩
              intro it hit
              cases hit
          | cons x t =>
              simp only [dispatch, hxq] at hd
              obtain rfl := Option.some.inj hd
              refine OrdInv_schedule _ _ _ (.angkutDrain k1 (b0 ++ [x])) le_rfl ?_
                ⟨hx.sorted, hx.hnow, hx.hev, hx.hlq, hx.haq, hx.hnq, ?_, hx.han, hx.hdata⟩
              · intro it hit
                rcases List.mem_append.1 hit with hit' | hit'
                · exact hpOK it hit'
                · obtain rfl := List.mem_singleton.1 hit'
                  refine hx.hal it ?_
                  show it ∈ s.antrian_lauk
                  rw [hxq]
                  exact List.mem_cons_self it t
              · intro it hit
                refine hx.hal it ?_
                show it ∈ s.antrian_lauk
                rw [hxq]
                exact List.mem_cons_of_mem x hit
  | angkutGranted b =>
      rw [hp] at hd
      rw [hp] at hpOK
      simp only [dispatch] at hd
      obtain rfl := Option.some.inj hd
      exact OrdInv_schedule _ _ _ _ (Nat.le_add_right _ _) hpOK
        ⟨hx.sorted, hx.hnow, hx.hev, hx.hlq, hx.haq, hx.hnq, hx.hal, hx.han, hx.hdata⟩
  | angkutDone b t =>
      rw [hp] at hd
      rw [hp] at hpOK
      simp only [dispatch] at hd
      have h1 := OrdInv_releaseAngkut { s with now := e.time, events := rest } hx
      refine OrdInv_putStepA g b _ s2 hd ?_
        ⟨h1.sorted, h1.hnow, h1.hev, h1.hlq, h1.haq, h1.hnq, h1.hal, h1.han, h1.hdata⟩
      intro it hit
      have hnn : (releaseAngkut { s with now := e.time, events := rest }).now = e.time :=
        releaseAngkut_now _
      exact ItemPre_mono (le_of_eq hnn.symm) (hpOK it hit)
  | angkutPut rest' =>
      rw [hp] at hd
      rw [hp] at hpOK
      simp only [dispatch] at hd
      exact OrdInv_putStepA g rest' _ s2 hd hpOK hx
  | nasiLoop =>
      rw [hp] at hd
      simp only [dispatch] at hd
      obtain rfl := Option.some.inj hd
      exact OrdInv_nasiLoopStep _ hx
  | nasiGot item =>
      rw [hp] at hd
      rw [hp] at hpOK
      simp only [dispatch] at hd
      obtain rfl := Option.some.inj hd
      exact OrdInv_requestNasi _ _ hpOK hx
  | nasiGranted item =>
      rw [hp] at hd
      rw [hp] at hpOK
      simp only [dispatch] at hd
      obtain rfl := Option.some.inj hd
      obtain ⟨h1, h2, sa, hsa, h3, h4⟩ := hpOK
      exact OrdInv_schedule _ _ _ _ (Nat.le_add_right _ _)
        ⟨h1, h2, ⟨sa, hsa, h3, h4⟩, le_rfl⟩
        ⟨hx.sorted, hx.hnow, hx.hev, hx.hlq, hx.haq, hx.hnq, hx.hal, hx.han, hx.hdata⟩
  | nasiDone item mulai t =>
      rw [hp] at hd
      rw [hp] at hpOK
      simp only [dispatch] at hd
      obtain rfl := Option.some.inj hd
      obtain ⟨h1, h2, ⟨sa, hsa, h3, h4⟩, h5⟩ := hpOK
      have hR := OrdInv_releaseNasi { s with now := e.time, events := rest } hx
      have hnn : (releaseNasi { s with now := e.time, events := rest }).now = e.time :=
        releaseNasi_now _
      refine OrdInv_nasiLoopStep _ ?_
      refine ⟨hR.sorted, hR.hnow, hR.hev, hR.hlq, hR.haq, hR.hnq, hR.hal, hR.han, ?_⟩
      intro r hr
      rcases List.mem_append.1 hr with hr' | hr'
      · exact hR.hdata r hr'
      · obtain rfl := List.mem_singleton.1 hr'
        refine ⟨h2, le_trans h3 h4, ?_, ?_⟩
        · show mulai ≤ (releaseNasi { s with now := e.time, events := rest }).now
          rw [hnn]
          exact h5
        · show (releaseNasi { s with now := e.time, events := rest }).now
            ≤ ((releaseNasi { s with now := e.time, events := rest }).now - item.datang)
              + item.mulai_lauk
          rw [hnn]
          have hchain : item.datang ≤ e.time :=
            le_trans h1 (le_trans h2 (le_trans h3 (le_trans h4 h5)))
          omega

theorem stepsTo_OrdInv (g : ℕ → ℕ) (n : ℕ) (s s2 : State)
    (h : stepsTo g n s = some s2) (hi : OrdInv s) : OrdInv s2 := by
  induction n generalizing s with
  | zero => obtain rfl := Option.some.inj h; exact hi
  | succ n ih =>
      unfold stepsTo at h
      cases hs : step g s with
      | running s3 =>
          rw [hs] at h
          exact ih s3 h (step_OrdInv g s s3 hs hi)
      | finished s3 => rw [hs] at h; cases h
      | failed => rw [hs] at h; cases h

theorem runState_OrdInv (c : Config) (s0 : State) (h : runState c = some s0) :
    OrdInv s0 := by
  rw [runState_eq c s0 h]
  refine ⟨?_, ?_, ?_, ?_, ?_, ?_, ?_, ?_, ?_⟩
  · show ([⟨0, 0, 0, .gen 0⟩, ⟨0, 0, 1, .angkutLoop⟩, ⟨0, 0, 2, .nasiLoop⟩]
        : List Event).Pairwise (fun a b => a.time ≤ b.time)
    decide
  · intro e he
    rcases List.mem_cons.1 he with rfl | he'
    · exact le_rfl
    · rcases List.mem_cons.1 he' with rfl | he''
      · exact le_rfl
      · rcases List.mem_cons.1 he'' with rfl | he'''
        · exact le_rfl
        · cases he'''
  · intro e he
    rcases List.mem_cons.1 he with rfl | he'
    · trivial
    · rcases List.mem_cons.1 he' with rfl | he''
      · trivial
      · rcases List.mem_cons.1 he'' with rfl | he'''
        · trivial
        · cases he'''
  · intro p hp; cases hp
  · intro p hp; cases hp
  · intro p hp; cases hp
  · intro it hit; cases hit
  · intro it hit; cases hit
  · intro r hr; cases hr

/-- Claim C4: in every state reachable during a run (in particular at
termination), every recorded result row has
`mulai_lauk ≤ selesai_lauk ≤ mulai_nasi ≤ selesai_nasi` with the arrival
time (recoverable as `selesai_nasi - total_waktu`) below `mulai_lauk`; and
every unit about to finish (a pending `nasiDone` resumption) carries the
full ordered chain `datang ≤ mulai_lauk ≤ selesai_lauk ≤ selesai_angkut ≤
mulai_nasi ≤` its finish instant. -/
theorem c4_recorded_order (g : ℕ → ℕ) (c : Config) (s : State)
    (hreach : Reachable g c s) :
    (∀ r ∈ s.data, r.mulai_lauk ≤ r.selesai_lauk ∧ r.selesai_lauk ≤ r.mulai_nasi ∧
      r.mulai_nasi ≤ r.selesai_nasi ∧ r.selesai_nasi ≤ r.total_waktu + r.mulai_lauk) ∧
    (∀ e ∈ s.events, ∀ item mulai t, e.proc = .nasiDone item mulai t →
      ∃ sa, item.selesai_angkut = some sa ∧
        item.datang ≤ item.mulai_lauk ∧ item.mulai_lauk ≤ item.selesai_lauk ∧
        item.selesai_lauk ≤ sa ∧ sa ≤ mulai ∧ mulai ≤ e.time) := by
  obtain ⟨s0, n, hrun, hsteps⟩ := hreach
  have hO : OrdInv s := stepsTo_OrdInv g n s0 s hsteps (runState_OrdInv c s0 hrun)
  refine ⟨fun r hr => hO.hdata r hr, ?_⟩
  intro e he item mulai t hpe
  have hq := hO.hev e he
  rw [hpe] at hq
  obtain ⟨h1, h2, ⟨sa, hsa, h3, h4⟩, h5⟩ := hq
  exact ⟨sa, hsa, h1, h2, h3, h4, le_trans h5 (hO.hnow e he)⟩

/-- Claim C4, witness: the terminated scenario run, whose six rows all
satisfy the recorded chain. -/
theorem c4_recorded_order_witness :
    (∀ r ∈ scenarioFinal.data,
      r.mulai_lauk ≤ r.selesai_lauk ∧ r.selesai_lauk ≤ r.mulai_nasi ∧
      r.mulai_nasi ≤ r.selesai_nasi ∧ r.selesai_nasi ≤ r.total_waktu + r.mulai_lauk) ∧
    (∀ e ∈ scenarioFinal.events, ∀ item mulai t, e.proc = .nasiDone item mulai t →
      ∃ sa, item.selesai_angkut = some sa ∧
        item.datang ≤ item.mulai_lauk ∧ item.mulai_lauk ≤ item.selesai_lauk ∧
        item.selesai_lauk ≤ sa ∧ sa ≤ mulai ∧ mulai ≤ e.time) :=
  c4_recorded_order zStream scenarioConfig scenarioFinal
    ⟨scenarioStart, 235, by decide, by decide⟩
